import Mathlib

/-!
Verification development for the `handler` repository's ingestion and
price-reconciliation pipeline (`buildDB_local.py`, `analyses/Handler_eier.py`,
`analyses/handler_aksje.py`).

The Python code is shallowly embedded:
* SQLite tables become Lean lists of row structures; SQL `REAL` values are
  modelled as exact rationals (`Rat`); `NULL` becomes `Option`.
* `TEXT` dates produced by `normalize_date` are ISO strings of valid calendar
  dates; since ISO-string comparison coincides with calendar order for
  four-digit years, fact rows carry a structured `Date` and SQL string
  comparisons (`BETWEEN`, `MAX`, `date(x, '+1 day')`) become `Date`
  comparisons and the calendar successor.
* Fallible Python code (uncaught exceptions) becomes `Except`.
* `pandas.to_datetime` free-form parsing is an external library; it is kept
  as an explicit function parameter (`generic`) of `normalize_date`.
-/

namespace Handler

/-! ## Calendar dates

`datetime.date` with its validity constraints (years 1..9999), plus the
calendar successor used by SQLite's `date(x, '+1 day')` and the
civil-from-days conversion used by `pd.to_datetime(n, unit="D",
origin="1899-12-30")`. -/

structure Date where
  year : Int
  month : Int
  day : Int
deriving DecidableEq, Repr

def isLeapYear (y : Int) : Bool :=
  y % 4 == 0 && (y % 100 != 0 || y % 400 == 0)

def daysInMonth (y m : Int) : Int :=
  if m == 2 then (if isLeapYear y then 29 else 28)
  else if m == 4 || m == 6 || m == 9 || m == 11 then 30
  else 31

/-- Validity as enforced by the `datetime.date` constructor. -/
def Date.valid (d : Date) : Bool :=
  1 ≤ d.year && d.year ≤ 9999 && 1 ≤ d.month && d.month ≤ 12 &&
  1 ≤ d.day && d.day ≤ daysInMonth d.year d.month

/-- `datetime.date` construction: `some` on valid input, `none` where the
constructor would raise (the callers catch that and return `None`). -/
def mkDate (y m d : Int) : Option Date :=
  if (Date.mk y m d).valid then some (Date.mk y m d) else none

/-- Calendar successor: SQLite's `date(x, '+1 day')` on an ISO date string. -/
def nextDay (d : Date) : Date :=
  if d.day < daysInMonth d.year d.month then ⟨d.year, d.month, d.day + 1⟩
  else if d.month < 12 then ⟨d.year, d.month + 1, 1⟩
  else ⟨d.year + 1, 1, 1⟩

/-- Chronological (= ISO-string lexicographic) order on dates. -/
def dateLe (a b : Date) : Bool :=
  a.year < b.year ||
  (a.year == b.year && (a.month < b.month ||
    (a.month == b.month && a.day ≤ b.day)))

def dateLt (a b : Date) : Bool :=
  a.year < b.year ||
  (a.year == b.year && (a.month < b.month ||
    (a.month == b.month && a.day < b.day)))

theorem dateLe_refl (a : Date) : dateLe a a = true := by
  simp [dateLe]

theorem dateLe_total (a b : Date) : dateLe a b = true ∨ dateLe b a = true := by
  simp only [dateLe, Bool.or_eq_true, Bool.and_eq_true, decide_eq_true_eq, beq_iff_eq]
  omega

theorem dateLe_trans {a b c : Date} (h1 : dateLe a b = true) (h2 : dateLe b c = true) :
    dateLe a c = true := by
  simp only [dateLe, Bool.or_eq_true, Bool.and_eq_true, decide_eq_true_eq, beq_iff_eq] at *
  omega

theorem dateLe_antisymm {a b : Date} (h1 : dateLe a b = true) (h2 : dateLe b a = true) :
    a = b := by
  simp only [dateLe, Bool.or_eq_true, Bool.and_eq_true, decide_eq_true_eq, beq_iff_eq] at *
  obtain ⟨ya, ma, da⟩ := a
  obtain ⟨yb, mb, db⟩ := b
  simp_all
  omega

/-- Days-from-civil / civil-from-days (proleptic Gregorian), `z` counted from
1970-01-01. Used for the spreadsheet serial-day decoding: a serial `n` counts
days since 1899-12-30, which is day `-25569` of the Unix epoch. -/
def civilFromDays (z0 : Int) : Date :=
  let z := z0 + 719468
  let era : Int := (if 0 ≤ z then z else z - 146096) / 146097
  let doe : Int := z - era * 146097
  let yoe : Int := (doe - doe / 1460 + doe / 36524 - doe / 146096) / 365
  let y : Int := yoe + era * 400
  let doy : Int := doe - (365 * yoe + yoe / 4 - yoe / 100)
  let mp : Int := (5 * doy + 2) / 153
  let d : Int := doy - (153 * mp + 2) / 5 + 1
  let m : Int := mp + (if mp < 10 then 3 else -9)
  ⟨y + (if m ≤ 2 then 1 else 0), m, d⟩

/-- Serial day number (days since 1899-12-30) to calendar date, the exact
mapping computed by `pd.to_datetime(n, unit="D", origin="1899-12-30")`. -/
def dateOfSerial (n : Int) : Date :=
  civilFromDays (n - 25569)

/-! ## Python string primitives (ASCII model)

Character-level models of the Python string operations the pipeline uses:
`str.strip`, `str.lower`, the `re.fullmatch(r"\d+", s)` digit test and
`int(s)` on digit strings. Characters are handled through their code points;
non-ASCII whitespace/digits are outside the model. -/

def isDigitC (c : Char) : Bool :=
  48 ≤ c.toNat && c.toNat ≤ 57

def digitVal (c : Char) : Nat := c.toNat - 48

/-- `int(s)` on an all-digit string. -/
def digitsToNat (l : List Char) : Nat :=
  l.foldl (fun a c => 10 * a + digitVal c) 0

/-- Python `str.isspace`-style whitespace for `strip` (ASCII part). -/
def isSpaceC (c : Char) : Bool :=
  c.toNat == 32 || (9 ≤ c.toNat && c.toNat ≤ 13)

/-- Python `str.strip()` (character list form). -/
def pyStripL (l : List Char) : List Char :=
  ((l.dropWhile isSpaceC).reverse.dropWhile isSpaceC).reverse

/-- Python `str.lower()` (ASCII part). -/
def lowerC (c : Char) : Char :=
  if 65 ≤ c.toNat && c.toNat ≤ 90 then Char.ofNat (c.toNat + 32) else c

def pyLowerL (l : List Char) : List Char :=
  l.map lowerC

/-! ## `normalize_date` (buildDB_local.py)

The pandas free-form fallback `pd.to_datetime(s, errors="coerce")` is an
external library call; it is passed in as the `generic` parameter (receiving
the stripped character list, returning the parsed date or `none` for `NaT`).
The function never raises: every callee is total and every internal `except`
returns `None`. -/

/-- ISO-format one date field with zero padding (`%02d` / `%04d` on a
nonnegative value). -/
def pad2 (n : Nat) : List Char :=
  [Char.ofNat (48 + n / 10 % 10), Char.ofNat (48 + n % 10)]

def pad4 (n : Nat) : List Char :=
  [Char.ofNat (48 + n / 1000 % 10), Char.ofNat (48 + n / 100 % 10),
   Char.ofNat (48 + n / 10 % 10), Char.ofNat (48 + n % 10)]

/-- `date.isoformat()` for valid dates (years 1..9999, positive fields). -/
def Date.iso (d : Date) : String :=
  ⟨pad4 d.year.toNat ++ ['-'] ++ pad2 d.month.toNat ++ ['-'] ++ pad2 d.day.toNat⟩

def normalizeDateCore (generic : List Char → Option Date) (l0 : List Char) :
    Option String :=
  let l := pyStripL l0
  if l = [] then none
  else if pyLowerL l = ['n', 'a', 'n'] then none
  else if l.all isDigitC then
    if l.length = 8 then
      (mkDate (digitsToNat (l.take 4)) (digitsToNat ((l.drop 4).take 2))
        (digitsToNat (l.drop 6))).map Date.iso
    else if l.length = 6 then
      (mkDate (2000 + digitsToNat (l.take 2)) (digitsToNat ((l.drop 2).take 2))
        (digitsToNat (l.drop 4))).map Date.iso
    else if 20000 ≤ digitsToNat l ∧ digitsToNat l ≤ 80000 then
      some (Date.iso (dateOfSerial (digitsToNat l)))
    else
      (generic l).map Date.iso
  else
    (generic l).map Date.iso

/-- `normalize_date(value)` for a string cell value. -/
def normalize_date (generic : List Char → Option Date) (s : String) : Option String :=
  normalizeDateCore generic s.data

/-- `normalize_date` on a pandas cell: a missing cell (`NaN`) is caught by the
initial `pd.isna` check and yields `None`. -/
def normalizeDateCell (generic : List Char → Option Date) :
    Option String → Option String
  | none => none
  | some s => normalize_date generic s

/-! ## Relational model

The four tables of `SCHEMA_SQL`, as lists of row structures. `REAL` is
modelled as `Rat`, `NULL` as `Option`. Fact-table dates are structured
(`Date`) since every stored `date_today` is an ISO string of a valid date and
ISO-string order is calendar order. -/

structure InvestorRow where
  investor_id : String
  investor_type : Option String
  first_name : Option String
  last_name : Option String
  country_code : Option String
  raw_id : Option String
deriving DecidableEq, Repr

structure SecurityRow where
  isin : String
  ticker : Option String
  isin_name : Option String
  paper_group : Option String
  issuer_orgnr : Option String
  issuer_name : Option String
  registered_country : Option String
  market : Option String
  sector : Option String
  gics_sector : Option String
  ask_paper : Option String
  issued_shares : Option Rat
  last_price : Option Rat
deriving DecidableEq, Repr

structure PositionChangeRow where
  isin : String
  investor_id : String
  date_today : Date
  date_yesterday : Option Date
  holding_today : Option Rat
  holding_yesterday : Option Rat
  price_today : Option Rat
  price_yesterday : Option Rat
  change_qty : Option Rat
  abs_change_qty : Option Rat
  change_percent : Option Rat
  flag_new_source : Option Int
  flag_exit_source : Option Int
  rank : Option Int
  source_file : String
deriving DecidableEq, Repr

structure IngestedFileRow where
  filename : String
  mtime : Rat
  ingested_at : String
deriving DecidableEq, Repr

structure DB where
  investor : List InvestorRow
  security : List SecurityRow
  position_change : List PositionChangeRow
  ingested_files : List IngestedFileRow
deriving DecidableEq, Repr

/-- SQL `COALESCE(a, b)` on nullable values. -/
def coalesce {α : Type} (a : Option α) (b : Option α) : Option α :=
  match a with
  | some x => some x
  | none => b

/-- SQL `COALESCE(a, c)` with a non-null default. -/
def coalesceD {α : Type} (a : Option α) (c : α) : α :=
  match a with
  | some x => x
  | none => c

/-- SQL `NULLIF(a, c)`. -/
def nullif {α : Type} [DecidableEq α] (a : Option α) (c : α) : Option α :=
  match a with
  | some x => if x = c then none else some x
  | none => none

/-- SQL aggregate `MAX` over a group's value list, with respect to a boolean
order: `none` for the empty group. -/
def listMaxBy {α : Type} (le : α → α → Bool) : List α → Option α
  | [] => none
  | x :: xs =>
    match listMaxBy le xs with
    | none => some x
    | some m => some (if le x m then m else x)

theorem listMaxBy_mem {α : Type} (le : α → α → Bool) (l : List α) (m : α)
    (h : listMaxBy le l = some m) : m ∈ l := by
  induction l generalizing m with
  | nil => simp [listMaxBy] at h
  | cons x xs ih =>
    simp only [listMaxBy] at h
    cases hxs : listMaxBy le xs with
    | none => simp [hxs] at h; simp [h]
    | some m' =>
      simp only [hxs, Option.some.injEq] at h
      by_cases hle : le x m' = true
      · simp [hle] at h
        exact List.mem_cons_of_mem x (h ▸ ih m' hxs)
      · simp [hle] at h
        simp [h]

theorem listMaxBy_isSome {α : Type} (le : α → α → Bool) (l : List α)
    (h : l ≠ []) : (listMaxBy le l).isSome := by
  cases l with
  | nil => simp at h
  | cons x xs =>
    simp only [listMaxBy]
    cases listMaxBy le xs <;> simp

theorem listMaxBy_le {α : Type} (le : α → α → Bool)
    (htot : ∀ a b, le a b = true ∨ le b a = true)
    (htrans : ∀ a b c, le a b = true → le b c = true → le a c = true)
    (l : List α) (m : α) (h : listMaxBy le l = some m) :
    ∀ x ∈ l, le x m = true := by
  have hrefl : ∀ a, le a a = true := fun a => (htot a a).elim id id
  induction l generalizing m with
  | nil => simp
  | cons x xs ih =>
    intro y hy
    simp only [listMaxBy] at h
    cases hxs : listMaxBy le xs with
    | none =>
      cases xs with
      | nil =>
        simp [hxs] at h
        simp at hy
        simp [hy, ← h, hrefl]
      | cons z zs => simp [listMaxBy] at hxs; cases hz : listMaxBy le zs <;> simp [hz] at hxs
    | some m' =>
      simp only [hxs, Option.some.injEq] at h
      rcases List.mem_cons.mp hy with rfl | hymem
      · by_cases hle : le y m' = true
        · simp [hle] at h; exact h ▸ hle
        · simp [hle] at h; exact h ▸ hrefl y
      · have hym' := ih m' hxs y hymem
        by_cases hle : le x m' = true
        · simp [hle] at h; exact h ▸ hym'
        · simp [hle] at h
          rcases htot x m' with hxm | hmx
          · exact absurd hxm hle
          · exact h ▸ htrans y m' x hym' hmx

/-- Rational order as a boolean, for `MAX` over `REAL` groups. -/
def rle (a b : Rat) : Bool := a ≤ b

theorem rle_total (a b : Rat) : rle a b = true ∨ rle b a = true := by
  simp [rle]; exact le_total a b

theorem rle_trans (a b c : Rat) (h1 : rle a b = true) (h2 : rle b c = true) :
    rle a c = true := by
  simp [rle] at *; exact le_trans h1 h2

/-! ## Trade-price resolution (Handler_eier.py / handler_aksje.py)

The `prices` CTE and the `COALESCE(NULLIF(price_yesterday, 0), p2.p)`
expression shared verbatim by `fetch_aggregated_by_security`,
`fetch_transactions_for_security`, `fetch_buy_sell_by_investor` and
`fetch_all_transactions_for_security`. -/

/-- The `prices` CTE: per `(isin, date)`, `MAX(price_yesterday)` over the fact
rows with `COALESCE(price_yesterday, 0) > 0`; the group (hence the row) exists
only when at least one such fact row does. -/
def pricesFor (pcs : List PositionChangeRow) (i : String) (d : Date) : Option Rat :=
  listMaxBy rle
    (pcs.filterMap fun r =>
      if r.isin = i ∧ r.date_today = d ∧ 0 < coalesceD r.price_yesterday 0 then
        r.price_yesterday
      else none)

/-- `COALESCE(NULLIF(pc.price_yesterday, 0), p2.p)` where `p2` is the
`prices` row left-joined on `(pc.isin, date(pc.date_today, '+1 day'))`. -/
def trade_price (pcs : List PositionChangeRow) (r : PositionChangeRow) : Option Rat :=
  coalesce (nullif r.price_yesterday 0) (pricesFor pcs r.isin (nextDay r.date_today))

/-- `COALESCE(t.trade_price, 0) > 0`: the monetary-aggregation admission test. -/
def tradePricePos (pcs : List PositionChangeRow) (r : PositionChangeRow) : Bool :=
  0 < coalesceD (trade_price pcs r) 0

/-- `trades` CTE of `fetch_aggregated_by_security`: the investor's fact rows in
the date range (`BETWEEN` is inclusive). -/
def eierTrades (pcs : List PositionChangeRow) (investor_id : String)
    (date_from date_to : Date) : List PositionChangeRow :=
  pcs.filter fun r =>
    r.investor_id = investor_id ∧
    dateLe date_from r.date_today ∧ dateLe r.date_today date_to

/-- The rows that reach the monetary aggregation of
`fetch_aggregated_by_security` (its final `WHERE COALESCE(t.trade_price,0) > 0`). -/
def eierIncluded (pcs : List PositionChangeRow) (investor_id : String)
    (date_from date_to : Date) : List PositionChangeRow :=
  (eierTrades pcs investor_id date_from date_to).filter (tradePricePos pcs)

/-- `SUM(COALESCE(t.change_qty,0) * t.trade_price)` for one security group of
`fetch_aggregated_by_security`. -/
def eierNettoBelop (pcs : List PositionChangeRow) (investor_id : String)
    (date_from date_to : Date) (i : String) : Rat :=
  ((eierIncluded pcs investor_id date_from date_to).filter fun r => r.isin = i).foldl
    (fun acc r => acc + coalesceD r.change_qty 0 * coalesceD (trade_price pcs r) 0) 0

/-- `trades` CTE of `fetch_buy_sell_by_investor`: the security's fact rows in
the date range. -/
def aksjeTrades (pcs : List PositionChangeRow) (isin : String)
    (date_from date_to : Date) : List PositionChangeRow :=
  pcs.filter fun r =>
    r.isin = isin ∧ dateLe date_from r.date_today ∧ dateLe r.date_today date_to

/-- The rows that reach the per-investor buy/sell aggregation of
`fetch_buy_sell_by_investor` (its `WHERE COALESCE(t.trade_price,0) > 0`). -/
def aksjeIncluded (pcs : List PositionChangeRow) (isin : String)
    (date_from date_to : Date) : List PositionChangeRow :=
  (aksjeTrades pcs isin date_from date_to).filter (tradePricePos pcs)

/-- `SUM(COALESCE(t.change_qty,0) * t.trade_price)` for one investor group of
`fetch_buy_sell_by_investor`. -/
def aksjeNettoBelop (pcs : List PositionChangeRow) (isin : String)
    (date_from date_to : Date) (inv : String) : Rat :=
  ((aksjeIncluded pcs isin date_from date_to).filter fun r => r.investor_id = inv).foldl
    (fun acc r => acc + coalesceD r.change_qty 0 * coalesceD (trade_price pcs r) 0) 0

/-! ## Last-known-price backfill (`refresh_security_last_price_from_position_change`) -/

/-- The `candidates` CTE's `eff_price` column. -/
def effPrice (r : PositionChangeRow) : Option Rat :=
  if 0 < coalesceD r.price_today 0 then r.price_today
  else if 0 < coalesceD r.price_yesterday 0 then r.price_yesterday
  else none

/-- `COALESCE(eff_price, 0) > 0`. -/
def effPos (r : PositionChangeRow) : Bool :=
  0 < coalesceD (effPrice r) 0

/-- The `last_dates` CTE: per security, `MAX(date_today)` over candidates with
positive effective price. -/
def lastDateFor (pcs : List PositionChangeRow) (i : String) : Option Date :=
  listMaxBy dateLe
    (pcs.filterMap fun r => if r.isin = i ∧ effPos r then some r.date_today else none)

/-- The `last_prices` CTE: per security, `MAX(eff_price)` over the candidates
on its `last_date` with positive effective price. -/
def lastPriceFor (pcs : List PositionChangeRow) (i : String) : Option Rat :=
  match lastDateFor pcs i with
  | none => none
  | some ld =>
    listMaxBy rle
      (pcs.filterMap fun r =>
        if r.isin = i ∧ r.date_today = ld ∧ effPos r then effPrice r else none)

/-- The `UPDATE security SET last_price = ... WHERE isin IN (SELECT isin FROM
last_prices)` applied to one security row: rows of securities absent from
`last_prices` are untouched. -/
def refreshRow (pcs : List PositionChangeRow) (s : SecurityRow) : SecurityRow :=
  match lastPriceFor pcs s.isin with
  | none => s
  | some p => { s with last_price := some p }

/-- `refresh_security_last_price_from_position_change`. -/
def refresh_security_last_price (secs : List SecurityRow)
    (pcs : List PositionChangeRow) : List SecurityRow :=
  secs.map (refreshRow pcs)

/-! ## Dimension upserts and fact insert (`ingest_one_file` SQL) -/

/-- The `ON CONFLICT(investor_id) DO UPDATE` clause:
`field = COALESCE(excluded.field, investor.field)` for every non-key field. -/
def mergeInvestor (old new : InvestorRow) : InvestorRow :=
  { investor_id := old.investor_id
    investor_type := coalesce new.investor_type old.investor_type
    first_name := coalesce new.first_name old.first_name
    last_name := coalesce new.last_name old.last_name
    country_code := coalesce new.country_code old.country_code
    raw_id := coalesce new.raw_id old.raw_id }

def upsertInvestor (tbl : List InvestorRow) (r : InvestorRow) : List InvestorRow :=
  if tbl.any fun x => x.investor_id = r.investor_id then
    tbl.map fun x => if x.investor_id = r.investor_id then mergeInvestor x r else x
  else
    tbl ++ [r]

/-- The `ON CONFLICT(isin) DO UPDATE` clause of the security upsert. -/
def mergeSecurity (old new : SecurityRow) : SecurityRow :=
  { isin := old.isin
    ticker := coalesce new.ticker old.ticker
    isin_name := coalesce new.isin_name old.isin_name
    paper_group := coalesce new.paper_group old.paper_group
    issuer_orgnr := coalesce new.issuer_orgnr old.issuer_orgnr
    issuer_name := coalesce new.issuer_name old.issuer_name
    registered_country := coalesce new.registered_country old.registered_country
    market := coalesce new.market old.market
    sector := coalesce new.sector old.sector
    gics_sector := coalesce new.gics_sector old.gics_sector
    ask_paper := coalesce new.ask_paper old.ask_paper
    issued_shares := coalesce new.issued_shares old.issued_shares
    last_price := old.last_price }

/-- The security insert's column list carries no `last_price`; a fresh row
gets `NULL` there and a conflicting row keeps its stored value. -/
def upsertSecurity (tbl : List SecurityRow) (r : SecurityRow) : List SecurityRow :=
  if tbl.any fun x => x.isin = r.isin then
    tbl.map fun x => if x.isin = r.isin then mergeSecurity x r else x
  else
    tbl ++ [{ r with last_price := none }]

/-- The fact-table primary key `(isin, investor_id, date_today)`. -/
def pcKey (r : PositionChangeRow) : String × String × Date :=
  (r.isin, r.investor_id, r.date_today)

/-- `INSERT OR REPLACE INTO position_change`: any row with the same primary
key is deleted and the incoming row inserted wholesale. -/
def insertOrReplacePC (tbl : List PositionChangeRow) (r : PositionChangeRow) :
    List PositionChangeRow :=
  (tbl.filter fun x => pcKey x ≠ pcKey r) ++ [r]

/-! ## Bounded snapshot (`build_recent_db`) -/

/-- The configured recent-window fact filter: `date_today >= date_from`. -/
def recentFacts (pcs : List PositionChangeRow) (date_from : Date) :
    List PositionChangeRow :=
  pcs.filter fun r => dateLe date_from r.date_today

/-- The table contents `build_recent_db` produces: dimensions and ledger
copied, facts filtered to the window, then
`refresh_security_last_price_from_position_change` run on the copy. -/
def build_recent (src : DB) (date_from : Date) : DB :=
  { investor := src.investor
    security := refresh_security_last_price src.security (recentFacts src.position_change date_from)
    position_change := recentFacts src.position_change date_from
    ingested_files := src.ingested_files }

/-! ## File selection (`get_files_to_ingest`, `parse_file_date_from_name`) -/

/-- Python string comparison: lexicographic on code points (used by
`sorted(out)`). -/
def lexLe : List Char → List Char → Bool
  | [], _ => true
  | _ :: _, [] => false
  | a :: as, b :: bs =>
    if a.toNat < b.toNat then true
    else if b.toNat < a.toNat then false
    else lexLe as bs

def strLe (a b : String) : Bool := lexLe a.data b.data

theorem lexLe_total (a b : List Char) : (lexLe a b || lexLe b a) = true := by
  induction a generalizing b with
  | nil => simp [lexLe]
  | cons x xs ih =>
    cases b with
    | nil => simp [lexLe]
    | cons y ys =>
      simp only [lexLe]
      rcases Nat.lt_trichotomy x.toNat y.toNat with h | h | h
      · simp [h]
      · simp [h, Nat.lt_irrefl, ih ys]
      · simp [h, Nat.lt_asymm h]

theorem lexLe_cons (x y : Char) (xs ys : List Char) :
    lexLe (x :: xs) (y :: ys) = true ↔
      x.toNat < y.toNat ∨ (x.toNat = y.toNat ∧ lexLe xs ys = true) := by
  simp only [lexLe]
  by_cases h1 : x.toNat < y.toNat <;> by_cases h2 : y.toNat < x.toNat <;>
    simp [h1, h2] <;> omega

theorem lexLe_trans (a b c : List Char) (h1 : lexLe a b = true)
    (h2 : lexLe b c = true) : lexLe a c = true := by
  induction a generalizing b c with
  | nil => simp [lexLe]
  | cons x xs ih =>
    cases b with
    | nil => simp [lexLe] at h1
    | cons y ys =>
      cases c with
      | nil => simp [lexLe] at h2
      | cons z zs =>
        rw [lexLe_cons] at h1 h2 ⊢
        rcases h1 with h1 | ⟨h1e, h1r⟩
        · rcases h2 with h2 | ⟨h2e, _⟩
          · exact Or.inl (Nat.lt_trans h1 h2)
          · exact Or.inl (h2e ▸ h1)
        · rcases h2 with h2 | ⟨h2e, h2r⟩
          · exact Or.inl (h1e ▸ h2)
          · exact Or.inr ⟨h1e.trans h2e, ih ys zs h1r h2r⟩

theorem strLe_total (a b : String) : (strLe a b || strLe b a) = true :=
  lexLe_total a.data b.data

theorem strLe_trans (a b c : String) (h1 : strLe a b = true)
    (h2 : strLe b c = true) : strLe a c = true :=
  lexLe_trans a.data b.data c.data h1 h2

/-- `F_PREFIX`. -/
def fPref : String := "TopChanges_Nordea_Invest_DAG_"

/-- `DATO_START` / `DATO_END`. -/
def datoStart : Date := ⟨2021, 1, 1⟩

def datoEnd : Date := ⟨2035, 12, 31⟩

/-- Python `int(s)` on a two-character substring: two digits, or one digit
with a sign or stripped whitespace character. Anything else raises, which
`parse_file_date_from_name` catches. (ASCII model; underscores are invalid
in two-character numerals.) -/
def pyInt2 (c1 c2 : Char) : Option Int :=
  if isDigitC c1 && isDigitC c2 then some (10 * digitVal c1 + digitVal c2)
  else if isSpaceC c1 && isDigitC c2 then some (digitVal c2)
  else if c1 = '+' && isDigitC c2 then some (digitVal c2)
  else if c1 = '-' && isDigitC c2 then some (-(digitVal c2 : Int))
  else if isDigitC c1 && isSpaceC c2 then some (digitVal c1)
  else none

/-- `parse_file_date_from_name(filename)`. -/
def parse_file_date_from_name (filename : String) : Option Date :=
  let l := filename.data
  if fPref.data.isPrefixOf l then
    let rest := l.drop fPref.data.length
    match rest with
    | c1 :: c2 :: c3 :: c4 :: c5 :: c6 :: _ =>
      match pyInt2 c1 c2, pyInt2 c3 c4, pyInt2 c5 c6 with
      | some yy, some mm, some dd => mkDate (2000 + yy) mm dd
      | _, _, _ => none
    | _ => none
  else none

/-- One catalog directory entry: filename and current on-disk mtime
(`os.path.getmtime`, modelled exactly). -/
structure CatalogEntry where
  name : String
  mtime : Rat
deriving DecidableEq, Repr

/-- The ledger lookup `ing = dict(conn.execute("SELECT filename, mtime FROM
ingested_files"))`; `filename` is the table's primary key. -/
def ledgerLookup (ledger : List IngestedFileRow) (fn : String) : Option Rat :=
  (ledger.find? fun e => e.filename = fn).map IngestedFileRow.mtime

/-- The per-file selection test inside the `for fn in os.listdir(CATALOG)`
loop. -/
def fileWanted (ledger : List IngestedFileRow) (e : CatalogEntry) : Bool :=
  match parse_file_date_from_name e.name with
  | none => false
  | some d =>
    if dateLt d datoStart || dateLt datoEnd d then false
    else
      match ledgerLookup ledger e.name with
      | none => true
      | some m => decide (m ≠ e.mtime)

/-- `get_files_to_ingest(conn)`: the loop plus final `sorted(out)`. -/
def get_files_to_ingest (ledger : List IngestedFileRow)
    (catalog : List CatalogEntry) : List String :=
  ((catalog.filter (fileWanted ledger)).map CatalogEntry.name).mergeSort strLe

/-! ## Numeric cell parsing (`clean_num` and the flag/rank lambdas)

Python `float(s)` is modelled on finite decimal/scientific literals with the
exact rational value (binary rounding and the non-finite literals
`inf`/`infinity`/`nan` are outside the model; a non-finite value would anyway
make the flag lambdas' `int(...)` raise, which the model reproduces by
treating those literals as unparseable). -/

/-- Split a character list at the first character satisfying `p`. -/
def breakAt (p : Char → Bool) : List Char → List Char × Option (List Char)
  | [] => ([], none)
  | c :: cs =>
    if p c then ([], some cs)
    else
      let r := breakAt p cs
      (c :: r.1, r.2)

/-- Nonempty all-digit run. -/
def parseDigits (l : List Char) : Option Nat :=
  if l ≠ [] ∧ l.all isDigitC then some (digitsToNat l) else none

/-- Mantissa `digits[.digits]`, `.digits` or `digits.`: scaled numerator and
decimal-place count. -/
def parseMantissa (l : List Char) : Option (Nat × Nat) :=
  let r := breakAt (fun c => c = '.') l
  match r.2 with
  | none => (parseDigits r.1).map fun n => (n, 0)
  | some fp =>
    if r.1.all isDigitC ∧ fp.all isDigitC ∧ (r.1 ≠ [] ∨ fp ≠ []) then
      some (digitsToNat r.1 * 10 ^ fp.length + digitsToNat fp, fp.length)
    else none

def parseSigned (l : List Char) : Option (Bool × List Char) :=
  match l with
  | '+' :: rest => some (false, rest)
  | '-' :: rest => some (true, rest)
  | _ => some (false, l)

/-- `float(s)` on a finite decimal or scientific literal; `none` where Python
would raise `ValueError` (and on non-finite literals, see above). The value
`±(n / 10^scale) · 10^e` is built with `mkRat` directly. -/
def pyFloat (s : String) : Option Rat :=
  let l := pyStripL s.data
  match parseSigned l with
  | none => none
  | some (neg, body) =>
    let me := breakAt (fun c => c = 'e' || c = 'E') body
    let mant := parseMantissa me.1
    match mant with
    | none => none
    | some (n, scale) =>
      let expv : Option Int :=
        match me.2 with
        | none => some 0
        | some ex =>
          match parseSigned ex with
          | none => none
          | some (eneg, edig) =>
            (parseDigits edig).map fun k => if eneg then -(k : Int) else (k : Int)
      match expv with
      | none => none
      | some e =>
        let v : Rat :=
          if 0 ≤ e then mkRat ((n : Int) * (10 : Int) ^ e.toNat) (10 ^ scale)
          else mkRat (n : Int) (10 ^ scale * 10 ^ (-e).toNat)
        some (if neg then -v else v)

/-- `clean_num(x)` on a string value: strip, reject blank/`"nan"`, turn the
decimal comma into a dot, then `float(...)`, with any parse failure swallowed
to `None`. -/
def clean_num (s : String) : Option Rat :=
  let l := pyStripL s.data
  if l = [] then none
  else if pyLowerL l = ['n', 'a', 'n'] then none
  else pyFloat ⟨l.map fun c => if c = ',' then '.' else c⟩

/-- `clean_num` on a pandas cell (`NaN` is caught by the `pd.isna` check). -/
def cleanNumCell : Option String → Option Rat
  | none => none
  | some s => clean_num s

/-- Python `int(q)` on a finite float value: truncation toward zero. -/
def ratTrunc (q : Rat) : Int :=
  if 0 ≤ q.num then q.num / (q.den : Int) else -((-q.num) / (q.den : Int))

/-- `str(x)` on a pandas cell: a missing cell is the float `nan`, whose `str`
is `"nan"`. -/
def pyStrOfCell : Option String → String
  | none => "nan"
  | some s => s

/-- The flag/rank lambda
`lambda x: int(float(x)) if str(x).strip() not in ["", "nan"] else None`.
Unlike `clean_num` and `normalize_date` it has no `try`/`except`: a
non-blank, non-`"nan"` cell that `float` cannot parse raises `ValueError`
out of `ingest_one_file`. -/
def parse_flag_cell (x : Option String) : Except String (Option Int) :=
  let s : String := ⟨pyStripL (pyStrOfCell x).data⟩
  if s = "" ∨ s = "nan" then .ok none
  else
    match pyFloat (pyStrOfCell x) with
    | some q => .ok (some (ratTrunc q))
    | none => .error ("could not convert string to float: " ++ pyStrOfCell x)

/-! ## Column resolution and the fact-parsing stage of `ingest_one_file` -/

/-- An input extract already read by `pd.read_csv(..., dtype=str)`: header
names, and per row the cells keyed by header name (`none` = `NaN`). -/
structure SourceFile where
  name : String
  cols : List String
  rows : List (List (String × Option String))

/-- `pick_col(*names)`: first alias present among the file's columns. -/
def pick_col (cols : List String) (names : List String) : Option String :=
  names.find? fun n => cols.contains n

def cellAt (row : List (String × Option String)) (c : String) : Option String :=
  match row.find? fun e => e.1 = c with
  | some e => e.2
  | none => none

/-- Cell of an optionally-resolved column: an absent column contributes the
scalar `None` for every row. -/
def colCell (row : List (String × Option String)) (c : Option String) :
    Option String :=
  c.bind (cellAt row)

/-- `astype(str).str.strip()`: never null, `NaN` becomes the string `"nan"`. -/
def strCellStr (c : Option String) : String :=
  ⟨pyStripL (pyStrOfCell c).data⟩

def mandatoryMsg (filename : String) : String :=
  "Mangler nødvendige kolonner i " ++ filename ++
    ". Trenger minst ISIN, investor_id og DatoIdag."

/-- One row of the `facts` DataFrame before `dropna`/`drop_duplicates`:
the parsed fact fields, with `date_today` still nullable. -/
structure FactRaw where
  isin : String
  investor_id : String
  date_today : Option String
  date_yesterday : Option String
  holding_today : Option Rat
  holding_yesterday : Option Rat
  price_today : Option Rat
  price_yesterday : Option Rat
  change_qty : Option Rat
  abs_change_qty : Option Rat
  change_percent : Option Rat
  flag_new_source : Option Int
  flag_exit_source : Option Int
  rank : Option Int
  source_file : String
deriving DecidableEq, Repr

/-- The column aliases of `ingest_one_file` for the fields that feed the fact
table. -/
def aliasesIsin : List String := ["ISIN"]

def aliasesInvestorId : List String := ["New_ID", "investor_ID", "Investor_ID", "InvestorID"]

def aliasesDateToday : List String := ["DatoIdag", "Dato idag", "DateToday"]

def aliasesDateYest : List String := ["DatoIgaar", "Dato igaar", "DateYesterday"]

def aliasesHToday : List String := ["Beh. idag", "Beh idag", "Holding today"]

def aliasesHYest : List String := ["Beh. igaar", "Beh igaar", "Holding yesterday"]

def aliasesPriceToday : List String := ["Kurs idag", "Kurs idag ", "Price today"]

def aliasesPriceYest : List String := ["Kurs igaar", "Kurs igaar ", "Price yesterday"]

def aliasesChange : List String := ["Change", "ChangeQty"]

def aliasesAbsChange : List String := ["AbsChange", "Abs change"]

def aliasesChangePct : List String := ["ChangePercent", "Change %"]

def aliasesFlagExit : List String := ["Forlatt", "Exit"]

def aliasesFlagNew : List String := ["Ny", "New"]

def aliasesRank : List String := ["Rank"]

/-- Flag/rank field of one row: an absent column is the scalar `None`, a
present column goes through the raising lambda. -/
def flagField (row : List (String × Option String)) (c : Option String) :
    Except String (Option Int) :=
  match c with
  | none => .ok none
  | some col => parse_flag_cell (cellAt row col)

/-- One row of the `facts` frame of `ingest_one_file`: every date and number
cell parses totally (to `null` on garbage); only the three flag/rank lambdas
can raise. -/
def parseFactRow (generic : List Char → Option Date) (f : SourceFile)
    (row : List (String × Option String)) : Except String FactRaw := do
  let cIsin := pick_col f.cols aliasesIsin
  let cInv := pick_col f.cols aliasesInvestorId
  let cDT := pick_col f.cols aliasesDateToday
  let cDY := pick_col f.cols aliasesDateYest
  let cHT := pick_col f.cols aliasesHToday
  let cHY := pick_col f.cols aliasesHYest
  let cPT := pick_col f.cols aliasesPriceToday
  let cPY := pick_col f.cols aliasesPriceYest
  let cCh := pick_col f.cols aliasesChange
  let cAb := pick_col f.cols aliasesAbsChange
  let cPc := pick_col f.cols aliasesChangePct
  let cFE := pick_col f.cols aliasesFlagExit
  let cFN := pick_col f.cols aliasesFlagNew
  let cRk := pick_col f.cols aliasesRank
  let fn ← flagField row cFN
  let fe ← flagField row cFE
  let rk ← flagField row cRk
  pure
    { isin := strCellStr (colCell row cIsin)
      investor_id := strCellStr (colCell row cInv)
      date_today := normalizeDateCell generic (colCell row cDT)
      date_yesterday :=
        match cDY with
        | none => none
        | some c => normalizeDateCell generic (cellAt row c)
      holding_today := (colCell row cHT).bind fun s => clean_num s
      holding_yesterday := (colCell row cHY).bind fun s => clean_num s
      price_today := (colCell row cPT).bind fun s => clean_num s
      price_yesterday := (colCell row cPY).bind fun s => clean_num s
      change_qty := (colCell row cCh).bind fun s => clean_num s
      abs_change_qty := (colCell row cAb).bind fun s => clean_num s
      change_percent := (colCell row cPc).bind fun s => clean_num s
      flag_new_source := fn
      flag_exit_source := fe
      rank := rk
      source_file := f.name }

/-- Row-by-row traversal with fail-fast error propagation (the behaviour of
the pandas column `map`s: the first raising cell aborts the file). -/
def mapExcept {α β : Type} (g : α → Except String β) :
    List α → Except String (List β)
  | [] => .ok []
  | x :: xs => do
    let y ← g x
    let ys ← mapExcept g xs
    pure (y :: ys)

/-- The parsing stage of `ingest_one_file`: column resolution, the
mandatory-column check (`raise ValueError` naming the file), then the
construction of the `facts` frame. -/
def ingest_parse (generic : List Char → Option Date) (f : SourceFile) :
    Except String (List FactRaw) :=
  if (pick_col f.cols aliasesIsin).isNone ∨
      (pick_col f.cols aliasesInvestorId).isNone ∨
      (pick_col f.cols aliasesDateToday).isNone then
    .error (mandatoryMsg f.name)
  else
    mapExcept (parseFactRow generic f) f.rows

/-! ## Filesystem model for `build_recent_db` / `nuke_sqlite_files`

A filesystem maps paths to database files. `build_recent_db(source, out, d)`
operates directly on `out`: it first deletes any existing store there
(`nuke_sqlite_files`), then creates the schema and fills it. The trace below
records the filesystem after each observable step (initial, nuked, schema
created, source tables copied in one transaction, last-price refresh). -/

def FS : Type := String → Option DB

def fsRemove (p : String) (fs : FS) : FS :=
  fun q => if q = p then none else fs q

def fsSet (p : String) (db : DB) (fs : FS) : FS :=
  fun q => if q = p then some db else fs q

/-- `nuke_sqlite_files(db_path)`: removes the store and its sidecar files. -/
def nuke_sqlite_files (p : String) (fs : FS) : FS :=
  fsRemove (p ++ "-journal") (fsRemove (p ++ "-shm") (fsRemove (p ++ "-wal") (fsRemove p fs)))

def emptyDB : DB := ⟨[], [], [], []⟩

/-- Contents of the output store after the `BEGIN ... COMMIT` copy block. -/
def copiedDB (src : DB) (date_from : Date) : DB :=
  { investor := src.investor
    security := src.security
    position_change := recentFacts src.position_change date_from
    ingested_files := src.ingested_files }

/-- The filesystem after each observable step of `build_recent_db`. -/
def build_recent_trace (src : DB) (date_from : Date) (outP : String) (fs : FS) :
    List FS :=
  let fs1 := nuke_sqlite_files outP fs
  let fs2 := fsSet outP emptyDB fs1
  let fs3 := fsSet outP (copiedDB src date_from) fs2
  let fs4 := fsSet outP (build_recent src date_from) fs3
  [fs, fs1, fs2, fs3, fs4]

/-- `build_recent_db` followed by `main`'s
`if not integrity_ok(DB_PATH_LOCAL_RECENT): raise`. The storage-level
integrity check is a parameter. The result pairs the filesystem left behind
with the run's outcome: on a failed check the run aborts with the raised
error, but the writes already happened — the freshly built store sits at
`outP` and the previous artifact is gone. -/
def run_build_recent (check : DB → Bool) (src : DB) (date_from : Date)
    (outP : String) (fs : FS) : FS × Except String Unit :=
  (fsSet outP (build_recent src date_from)
      (fsSet outP (copiedDB src date_from)
        (fsSet outP emptyDB (nuke_sqlite_files outP fs))),
    if check (build_recent src date_from) then .ok ()
    else .error "Lokal RECENT DB feilet integrity_check etter bygg.")

/-! ## Shared helper lemmas -/

theorem coalesce_spec {α : Type} (a b : Option α) :
    (b = none → coalesce b a = a) ∧ (b ≠ none → coalesce b a = b) := by
  cases b <;> simp [coalesce]

instance exceptDecEq {ε α : Type} [DecidableEq ε] [DecidableEq α] :
    DecidableEq (Except ε α) := fun x y =>
  match x, y with
  | .ok a, .ok b =>
    if h : a = b then .isTrue (by rw [h])
    else .isFalse (by intro hc; injection hc; exact h (by assumption))
  | .error a, .error b =>
    if h : a = b then .isTrue (by rw [h])
    else .isFalse (by intro hc; injection hc; exact h (by assumption))
  | .ok _, .error _ => .isFalse (by intro hc; exact Except.noConfusion hc)
  | .error _, .ok _ => .isFalse (by intro hc; exact Except.noConfusion hc)

theorem forall₂_map_self {α β : Type} (R : β → α → Prop) (f : α → β)
    (l : List α) (h : ∀ x ∈ l, R (f x) x) : List.Forall₂ R (l.map f) l := by
  induction l with
  | nil => simp
  | cons x xs ih =>
    simp only [List.map_cons]
    exact List.Forall₂.cons (h x (List.mem_cons_self x xs))
      (ih fun y hy => h y (List.mem_cons_of_mem x hy))

/-! ## Claim C4 — dimension upserts merge by COALESCE -/

theorem upsertInvestor_mem (tbl : List InvestorRow) (old new : InvestorRow)
    (hOld : old ∈ tbl) (hKey : old.investor_id = new.investor_id) :
    mergeInvestor old new ∈ upsertInvestor tbl new := by
  have hany : (tbl.any fun x => x.investor_id = new.investor_id) = true :=
    List.any_eq_true.mpr ⟨old, hOld, by simp [hKey]⟩
  simp only [upsertInvestor, hany, if_true]
  exact List.mem_map.mpr ⟨old, hOld, by simp [hKey]⟩

theorem upsertSecurity_mem (tbl : List SecurityRow) (old new : SecurityRow)
    (hOld : old ∈ tbl) (hKey : old.isin = new.isin) :
    mergeSecurity old new ∈ upsertSecurity tbl new := by
  have hany : (tbl.any fun x => x.isin = new.isin) = true :=
    List.any_eq_true.mpr ⟨old, hOld, by simp [hKey]⟩
  simp only [upsertSecurity, hany, if_true]
  exact List.mem_map.mpr ⟨old, hOld, by simp [hKey]⟩

/-- C4: on every investor/security dimension upsert hitting an existing key,
the stored row is replaced by the field-wise merge in which an incoming null
leaves the previously stored value unchanged and an incoming non-null value
overwrites it — for every non-key field of both dimensions. -/
theorem claim_C4_dimension_merge_coalesce
    (invTbl : List InvestorRow) (secTbl : List SecurityRow)
    (oldI newI : InvestorRow) (oldS newS : SecurityRow)
    (hOldI : oldI ∈ invTbl) (hKeyI : oldI.investor_id = newI.investor_id)
    (hOldS : oldS ∈ secTbl) (hKeyS : oldS.isin = newS.isin) :
    (mergeInvestor oldI newI ∈ upsertInvestor invTbl newI ∧
      ((newI.investor_type = none →
          (mergeInvestor oldI newI).investor_type = oldI.investor_type) ∧
        (newI.investor_type ≠ none →
          (mergeInvestor oldI newI).investor_type = newI.investor_type)) ∧
      ((newI.first_name = none →
          (mergeInvestor oldI newI).first_name = oldI.first_name) ∧
        (newI.first_name ≠ none →
          (mergeInvestor oldI newI).first_name = newI.first_name)) ∧
      ((newI.last_name = none →
          (mergeInvestor oldI newI).last_name = oldI.last_name) ∧
        (newI.last_name ≠ none →
          (mergeInvestor oldI newI).last_name = newI.last_name)) ∧
      ((newI.country_code = none →
          (mergeInvestor oldI newI).country_code = oldI.country_code) ∧
        (newI.country_code ≠ none →
          (mergeInvestor oldI newI).country_code = newI.country_code)) ∧
      ((newI.raw_id = none → (mergeInvestor oldI newI).raw_id = oldI.raw_id) ∧
        (newI.raw_id ≠ none → (mergeInvestor oldI newI).raw_id = newI.raw_id))) ∧
    (mergeSecurity oldS newS ∈ upsertSecurity secTbl newS ∧
      ((newS.ticker = none → (mergeSecurity oldS newS).ticker = oldS.ticker) ∧
        (newS.ticker ≠ none → (mergeSecurity oldS newS).ticker = newS.ticker)) ∧
      ((newS.isin_name = none →
          (mergeSecurity oldS newS).isin_name = oldS.isin_name) ∧
        (newS.isin_name ≠ none →
          (mergeSecurity oldS newS).isin_name = newS.isin_name)) ∧
      ((newS.paper_group = none →
          (mergeSecurity oldS newS).paper_group = oldS.paper_group) ∧
        (newS.paper_group ≠ none →
          (mergeSecurity oldS newS).paper_group = newS.paper_group)) ∧
      ((newS.issuer_orgnr = none →
          (mergeSecurity oldS newS).issuer_orgnr = oldS.issuer_orgnr) ∧
        (newS.issuer_orgnr ≠ none →
          (mergeSecurity oldS newS).issuer_orgnr = newS.issuer_orgnr)) ∧
      ((newS.issuer_name = none →
          (mergeSecurity oldS newS).issuer_name = oldS.issuer_name) ∧
        (newS.issuer_name ≠ none →
          (mergeSecurity oldS newS).issuer_name = newS.issuer_name)) ∧
      ((newS.registered_country = none →
          (mergeSecurity oldS newS).registered_country = oldS.registered_country) ∧
        (newS.registered_country ≠ none →
          (mergeSecurity oldS newS).registered_country = newS.registered_country)) ∧
      ((newS.market = none → (mergeSecurity oldS newS).market = oldS.market) ∧
        (newS.market ≠ none → (mergeSecurity oldS newS).market = newS.market)) ∧
      ((newS.sector = none → (mergeSecurity oldS newS).sector = oldS.sector) ∧
        (newS.sector ≠ none → (mergeSecurity oldS newS).sector = newS.sector)) ∧
      ((newS.gics_sector = none →
          (mergeSecurity oldS newS).gics_sector = oldS.gics_sector) ∧
        (newS.gics_sector ≠ none →
          (mergeSecurity oldS newS).gics_sector = newS.gics_sector)) ∧
      ((newS.ask_paper = none →
          (mergeSecurity oldS newS).ask_paper = oldS.ask_paper) ∧
        (newS.ask_paper ≠ none →
          (mergeSecurity oldS newS).ask_paper = newS.ask_paper)) ∧
      ((newS.issued_shares = none →
          (mergeSecurity oldS newS).issued_shares = oldS.issued_shares) ∧
        (newS.issued_shares ≠ none →
          (mergeSecurity oldS newS).issued_shares = newS.issued_shares))) := by
  refine ⟨⟨upsertInvestor_mem invTbl oldI newI hOldI hKeyI, ?_, ?_, ?_, ?_, ?_⟩,
    ⟨upsertSecurity_mem secTbl oldS newS hOldS hKeyS, ?_, ?_, ?_, ?_, ?_, ?_, ?_, ?_, ?_, ?_, ?_⟩⟩ <;>
    exact coalesce_spec _ _

def c4OldInv : InvestorRow := ⟨"I1", some "A", some "F", none, some "NO", none⟩

def c4NewInv : InvestorRow := ⟨"I1", none, some "G", some "L", none, none⟩

def c4OldSec : SecurityRow :=
  ⟨"X1", some "TIK", none, none, none, none, none, none, none, none, none, some 10, some 99⟩

def c4NewSec : SecurityRow :=
  ⟨"X1", none, some "Name", none, none, none, none, none, none, none, none, none, none⟩

theorem claim_C4_dimension_merge_coalesce_witness :
    (mergeInvestor c4OldInv c4NewInv).investor_type = some "A" ∧
    (mergeInvestor c4OldInv c4NewInv).first_name = some "G" ∧
    (mergeSecurity c4OldSec c4NewSec).ticker = some "TIK" ∧
    (mergeSecurity c4OldSec c4NewSec).isin_name = some "Name" ∧
    mergeInvestor c4OldInv c4NewInv ∈ upsertInvestor [c4OldInv] c4NewInv := by
  have h := claim_C4_dimension_merge_coalesce [c4OldInv] [c4OldSec]
    c4OldInv c4NewInv c4OldSec c4NewSec
    (List.mem_singleton.mpr rfl) rfl (List.mem_singleton.mpr rfl) rfl
  refine ⟨h.1.2.1.1 rfl, h.1.2.2.1.2 (by simp [c4NewInv]), h.2.2.1.1 rfl,
    h.2.2.2.1.2 (by simp [c4NewSec]), h.1.1⟩

/-! ## Claim C5 — fact insert replaces wholesale -/

/-- C5: `INSERT OR REPLACE` on `position_change` is last-write-wins: after
inserting a row, the unique stored row with its `(isin, investor_id,
date_today)` key is exactly the new row — every field, including those the
new row carries as null — while rows with other keys are untouched. -/
theorem claim_C5_fact_replace_wholesale (tbl : List PositionChangeRow)
    (r : PositionChangeRow) :
    r ∈ insertOrReplacePC tbl r ∧
    (∀ x ∈ insertOrReplacePC tbl r, pcKey x = pcKey r → x = r) ∧
    (∀ x ∈ tbl, pcKey x ≠ pcKey r → x ∈ insertOrReplacePC tbl r) ∧
    (∀ x ∈ insertOrReplacePC tbl r, x = r ∨ x ∈ tbl) := by
  refine ⟨?_, ?_, ?_, ?_⟩
  · exact List.mem_append_right _ (List.mem_singleton.mpr rfl)
  · intro x hx hkey
    rcases List.mem_append.mp hx with hf | hr
    · have := List.of_mem_filter hf
      simp only [decide_eq_true_eq] at this
      exact absurd hkey this
    · exact List.mem_singleton.mp hr
  · intro x hx hkey
    exact List.mem_append_left _ (List.mem_filter.mpr ⟨hx, by simpa using hkey⟩)
  · intro x hx
    rcases List.mem_append.mp hx with hf | hr
    · exact Or.inr (List.mem_of_mem_filter hf)
    · exact Or.inl (List.mem_singleton.mp hr)

def c5Old : PositionChangeRow :=
  ⟨"X1", "I1", ⟨2024, 1, 10⟩, some ⟨2024, 1, 9⟩, some 100, some 50, some 10,
    some 9, some 50, some 50, some 1, some 1, none, some 3, "old.csv"⟩

def c5New : PositionChangeRow :=
  ⟨"X1", "I1", ⟨2024, 1, 10⟩, none, some 120, none, none, none, some 70, none,
    none, none, none, none, "new.csv"⟩

theorem claim_C5_fact_replace_wholesale_witness :
    c5New ∈ insertOrReplacePC [c5Old] c5New ∧
    (∀ x ∈ insertOrReplacePC [c5Old] c5New, pcKey x = pcKey c5New → x = c5New) := by
  exact ⟨(claim_C5_fact_replace_wholesale [c5Old] c5New).1,
    (claim_C5_fact_replace_wholesale [c5Old] c5New).2.1⟩

/-! ## Claims C2 / C6 — last-known-price backfill and bounded snapshot -/

/-- The per-security date pool of the `last_dates` CTE. -/
def effDates (pcs : List PositionChangeRow) (i : String) : List Date :=
  pcs.filterMap fun r => if r.isin = i ∧ effPos r = true then some r.date_today else none

/-- The per-security price pool of the `last_prices` CTE at date `ld`. -/
def effPricesOn (pcs : List PositionChangeRow) (i : String) (ld : Date) : List Rat :=
  pcs.filterMap fun r =>
    if r.isin = i ∧ r.date_today = ld ∧ effPos r = true then effPrice r else none

theorem lastDateFor_eq (pcs : List PositionChangeRow) (i : String) :
    lastDateFor pcs i = listMaxBy dateLe (effDates pcs i) := rfl

theorem effPos_iff (r : PositionChangeRow) :
    effPos r = true ↔ ∃ q, effPrice r = some q ∧ 0 < q := by
  unfold effPos
  cases h : effPrice r with
  | none => simp [coalesceD, h]
  | some q => simp [coalesceD, h]

/-- What the backfill pass does to one security row, stated the way the spec
describes the pass: if the security has any fact row with a strictly positive
effective price, `last_price` becomes the maximum positive effective price on
its most recent such date; otherwise the row is left completely unchanged. -/
def refreshedRowSpec (pcs : List PositionChangeRow) (s out : SecurityRow) : Prop :=
  (out.isin = s.isin ∧ out.ticker = s.ticker ∧ out.isin_name = s.isin_name ∧
    out.paper_group = s.paper_group ∧ out.issuer_orgnr = s.issuer_orgnr ∧
    out.issuer_name = s.issuer_name ∧ out.registered_country = s.registered_country ∧
    out.market = s.market ∧ out.sector = s.sector ∧ out.gics_sector = s.gics_sector ∧
    out.ask_paper = s.ask_paper ∧ out.issued_shares = s.issued_shares) ∧
  ((∃ r ∈ pcs, r.isin = s.isin ∧ effPos r = true) →
    ∃ D p, out.last_price = some p ∧ 0 < p ∧
      (∃ r ∈ pcs, r.isin = s.isin ∧ r.date_today = D ∧ effPrice r = some p) ∧
      (∀ r ∈ pcs, r.isin = s.isin → effPos r = true → dateLe r.date_today D = true) ∧
      (∀ r ∈ pcs, r.isin = s.isin → r.date_today = D → ∀ q, effPrice r = some q →
        0 < q → q ≤ p)) ∧
  (¬(∃ r ∈ pcs, r.isin = s.isin ∧ effPos r = true) → out = s)

theorem refreshRow_spec (pcs : List PositionChangeRow) (s : SecurityRow) :
    refreshedRowSpec pcs s (refreshRow pcs s) := by
  refine ⟨?_, ?_, ?_⟩
  · cases h : lastPriceFor pcs s.isin <;> simp [refreshRow, h]
  · rintro ⟨r, hr, hri, hre⟩
    -- the date pool is nonempty, so `last_dates` yields a date D
    have hrd : r.date_today ∈ effDates pcs s.isin :=
      List.mem_filterMap.mpr ⟨r, hr, by simp [hri, hre]⟩
    have hne : effDates pcs s.isin ≠ [] := List.ne_nil_of_mem hrd
    obtain ⟨D, hD⟩ := Option.isSome_iff_exists.mp
      (listMaxBy_isSome dateLe (effDates pcs s.isin) hne)
    have hld : lastDateFor pcs s.isin = some D := hD
    -- D itself is witnessed by some positive-effective-price row
    have hDmem : D ∈ effDates pcs s.isin := listMaxBy_mem dateLe _ D hD
    obtain ⟨r0, hr0, hr0c⟩ := List.mem_filterMap.mp hDmem
    by_cases hc0 : r0.isin = s.isin ∧ effPos r0 = true
    swap
    · simp [hc0] at hr0c
    rw [if_pos hc0] at hr0c
    obtain ⟨q0, hq0, hq0pos⟩ := (effPos_iff r0).mp hc0.2
    -- the price pool on D is nonempty, so `last_prices` yields a price p
    have hq0mem : q0 ∈ effPricesOn pcs s.isin D :=
      List.mem_filterMap.mpr ⟨r0, hr0, by
        rw [if_pos ⟨hc0.1, Option.some.injEq _ _ ▸ hr0c, hc0.2⟩]
        exact hq0⟩
    have hpne : effPricesOn pcs s.isin D ≠ [] := List.ne_nil_of_mem hq0mem
    obtain ⟨p, hp⟩ := Option.isSome_iff_exists.mp
      (listMaxBy_isSome rle (effPricesOn pcs s.isin D) hpne)
    have hlp : lastPriceFor pcs s.isin = some p := by
      unfold lastPriceFor
      rw [hld]
      exact hp
    refine ⟨D, p, ?_, ?_, ?_, ?_, ?_⟩
    · simp [refreshRow, hlp]
    · -- p is a member of the price pool, hence strictly positive
      have hpmem : p ∈ effPricesOn pcs s.isin D := listMaxBy_mem rle _ p hp
      obtain ⟨r1, hr1, hr1c⟩ := List.mem_filterMap.mp hpmem
      by_cases hc1 : r1.isin = s.isin ∧ r1.date_today = D ∧ effPos r1 = true
      swap
      · simp [hc1] at hr1c
      rw [if_pos hc1] at hr1c
      obtain ⟨q1, hq1, hq1pos⟩ := (effPos_iff r1).mp hc1.2.2
      rw [hq1] at hr1c
      exact (Option.some.injEq _ _ ▸ hr1c) ▸ hq1pos
    · have hpmem : p ∈ effPricesOn pcs s.isin D := listMaxBy_mem rle _ p hp
      obtain ⟨r1, hr1, hr1c⟩ := List.mem_filterMap.mp hpmem
      by_cases hc1 : r1.isin = s.isin ∧ r1.date_today = D ∧ effPos r1 = true
      swap
      · simp [hc1] at hr1c
      rw [if_pos hc1] at hr1c
      exact ⟨r1, hr1, hc1.1, hc1.2.1, hr1c⟩
    · intro r' hr' hri' hre'
      have : r'.date_today ∈ effDates pcs s.isin :=
        List.mem_filterMap.mpr ⟨r', hr', by simp [hri', hre']⟩
      exact listMaxBy_le dateLe dateLe_total (fun a b c => dateLe_trans)
        (effDates pcs s.isin) D hD r'.date_today this
    · intro r' hr' hri' hrd' q hq hqpos
      have hpos' : effPos r' = true := (effPos_iff r').mpr ⟨q, hq, hqpos⟩
      have : q ∈ effPricesOn pcs s.isin D :=
        List.mem_filterMap.mpr ⟨r', hr', by rw [if_pos ⟨hri', hrd', hpos'⟩]; exact hq⟩
      have := listMaxBy_le rle rle_total rle_trans (effPricesOn pcs s.isin D) p hp q this
      simpa [rle] using this
  · intro hno
    have hnil : effDates pcs s.isin = [] := by
      rw [effDates, List.filterMap_eq_nil_iff]
      intro r hr
      by_cases hc : r.isin = s.isin ∧ effPos r = true
      · exact absurd ⟨r, hr, hc⟩ hno
      · simp [hc]
    have : lastPriceFor pcs s.isin = none := by
      unfold lastPriceFor
      rw [lastDateFor_eq, hnil]
      simp [listMaxBy]
    simp [refreshRow, this]

/-- C2 (amended): the backfill pass rewrites each security row to the
spec-described value when the security has a strictly positive effective
price somewhere, and leaves the row untouched (same `last_price` as before
the pass — in particular still null if it was null, and never zero)
otherwise. -/
theorem claim_C2_last_price_backfill (secs : List SecurityRow)
    (pcs : List PositionChangeRow) :
    List.Forall₂ (fun out s => refreshedRowSpec pcs s out)
      (refresh_security_last_price secs pcs) secs :=
  forall₂_map_self _ _ secs fun s _ => refreshRow_spec pcs s

def c2Sec : SecurityRow :=
  ⟨"X1", some "TIK", none, none, none, none, none, none, none, none, none, none, some 42⟩

def c2Fact : PositionChangeRow :=
  ⟨"X1", "I1", ⟨2024, 1, 10⟩, none, none, none, some 100, some 99, none, none,
    none, none, none, none, "f.csv"⟩

theorem claim_C2_last_price_backfill_witness :
    List.Forall₂ (fun out s => refreshedRowSpec [c2Fact] s out)
      (refresh_security_last_price [c2Sec] [c2Fact]) [c2Sec] :=
  claim_C2_last_price_backfill [c2Sec] [c2Fact]

/-- C2 counterexample: a security with no strictly positive effective price
anywhere in the fact table is NOT left with `last_price` null by the pass —
the `UPDATE ... WHERE isin IN (SELECT isin FROM last_prices)` simply skips
it, so a previously stored non-null value (for example the best-effort
estimate written during ingestion) survives. -/
theorem claim_C2_counterexample :
    (¬∃ r ∈ ([] : List PositionChangeRow), r.isin = "X1" ∧ effPos r = true) ∧
    refresh_security_last_price [c2Sec] [] = [c2Sec] ∧
    c2Sec.last_price = some 42 ∧ (some (42 : Rat) ≠ (none : Option Rat)) := by
  refine ⟨by simp, rfl, rfl, by simp⟩

/-- C6 (amended helper, modelled from the spec's words in §4.5/§4.4b): the
claim's asserted value of a snapshot security's `last_price` — recomputed
purely within the bounded window, left unset (null) when no in-window fact
row has a strictly positive effective price, never copied from the source
store. -/
def specBoundedLastPrice (src : DB) (cutoff : Date) (i : String) : Option Rat :=
  lastPriceFor (recentFacts src.position_change cutoff) i

/-- C6 (amended): the bounded snapshot copies the investor rows and ledger
verbatim, keeps exactly the fact rows dated on or after the cutoff, and its
security table is the source's security table with the last-known-price
backfill re-run over the in-window fact rows only — so a security with a
positive in-window effective price gets the in-window recomputed value,
while every other security keeps the source store's row (including its
copied `last_price`) unchanged. -/
theorem claim_C6_bounded_snapshot (src : DB) (cutoff : Date) :
    (build_recent src cutoff).investor = src.investor ∧
    (build_recent src cutoff).ingested_files = src.ingested_files ∧
    (∀ r : PositionChangeRow, r ∈ (build_recent src cutoff).position_change ↔
      (r ∈ src.position_change ∧ dateLe cutoff r.date_today = true)) ∧
    List.Forall₂
      (fun out s => refreshedRowSpec (recentFacts src.position_change cutoff) s out)
      (build_recent src cutoff).security src.security := by
  refine ⟨rfl, rfl, ?_, ?_⟩
  · intro r
    simp [build_recent, recentFacts, List.mem_filter]
  · exact forall₂_map_self _ _ src.security fun s _ =>
      refreshRow_spec (recentFacts src.position_change cutoff) s

def c6Sec : SecurityRow :=
  ⟨"X1", none, none, none, none, none, none, none, none, none, none, none, some 100⟩

def c6Fact : PositionChangeRow :=
  ⟨"X1", "I1", ⟨2024, 1, 10⟩, none, none, none, some 100, none, none, none,
    none, none, none, none, "f.csv"⟩

def c6Src : DB := ⟨[], [c6Sec], [c6Fact], []⟩

def c6Cut : Date := ⟨2024, 2, 1⟩

theorem claim_C6_bounded_snapshot_witness :
    (build_recent c6Src c6Cut).investor = c6Src.investor ∧
    (∀ r : PositionChangeRow, r ∈ (build_recent c6Src c6Cut).position_change ↔
      (r ∈ c6Src.position_change ∧ dateLe c6Cut r.date_today = true)) :=
  ⟨(claim_C6_bounded_snapshot c6Src c6Cut).1,
    (claim_C6_bounded_snapshot c6Src c6Cut).2.2.1⟩

/-- C6 counterexample: a security whose only positive price lies before the
cutoff. The snapshot's stored `last_price` is the value copied from the
source store (100), while the claim's "recomputed by the backfill over only
the copied (in-window) fact rows rather than copied from the source" value
is null — the snapshot does copy `last_price` from the source for such
securities. -/
theorem claim_C6_counterexample :
    (build_recent c6Src c6Cut).position_change = [] ∧
    (build_recent c6Src c6Cut).security = [c6Sec] ∧
    c6Sec.last_price = some 100 ∧
    specBoundedLastPrice c6Src c6Cut "X1" = none ∧
    (some (100 : Rat) ≠ (none : Option Rat)) := by
  refine ⟨?_, ?_, rfl, ?_, by simp⟩
  · simp [build_recent, recentFacts, c6Src, c6Fact, c6Cut, dateLe]
  · simp [build_recent, refresh_security_last_price, refreshRow,
      lastPriceFor, lastDateFor, recentFacts, c6Src, c6Fact, c6Cut, dateLe,
      listMaxBy]
  · simp [specBoundedLastPrice, lastPriceFor, lastDateFor, recentFacts,
      c6Src, c6Fact, c6Cut, dateLe, listMaxBy]

/-! ## Claims C1 / C10 — trade-price resolution and next-day fallback -/

theorem pricesFor_spec (pcs : List PositionChangeRow) (i : String) (d : Date)
    (m : Rat) (h : pricesFor pcs i d = some m) :
    0 < m ∧
    (∃ x ∈ pcs, x.isin = i ∧ x.date_today = d ∧ x.price_yesterday = some m) ∧
    (∀ x ∈ pcs, x.isin = i → x.date_today = d → ∀ q, x.price_yesterday = some q →
      0 < q → q ≤ m) := by
  have hmem := listMaxBy_mem rle _ m h
  obtain ⟨x, hx, hxc⟩ := List.mem_filterMap.mp hmem
  by_cases hc : x.isin = i ∧ x.date_today = d ∧ 0 < coalesceD x.price_yesterday 0
  swap
  · simp [hc] at hxc
  rw [if_pos hc] at hxc
  have hpos : 0 < m := by
    have := hc.2.2
    rw [hxc] at this
    simpa [coalesceD] using this
  refine ⟨hpos, ⟨x, hx, hc.1, hc.2.1, hxc⟩, ?_⟩
  intro y hy hyi hyd q hq hqpos
  have hqmem : q ∈ pcs.filterMap fun z =>
      if z.isin = i ∧ z.date_today = d ∧ 0 < coalesceD z.price_yesterday 0 then
        z.price_yesterday
      else none := by
    refine List.mem_filterMap.mpr ⟨y, hy, ?_⟩
    rw [if_pos ⟨hyi, hyd, by simpa [coalesceD, hq] using hqpos⟩]
    exact hq
  have := listMaxBy_le rle rle_total rle_trans _ m h q hqmem
  simpa [rle] using this

/-- C1 (amended): the resolved trade price equals the row's recorded
(`price_yesterday`) value whenever that value is non-null and nonzero — in
particular whenever it is strictly positive; when the recorded value is null
or zero it equals the next calendar day's observed price, i.e. the maximum
positive recorded price across all fact rows of that security on the next
date; and a fact row whose resolved trade price is not strictly positive is
excluded from the monetary aggregations of both analysis queries — it is
absent from the aggregated row set, not counted as zero. -/
theorem claim_C1_trade_price_resolution (pcs : List PositionChangeRow)
    (r : PositionChangeRow) (inv i : String) (a b : Date) :
    (∀ p, r.price_yesterday = some p → p ≠ 0 → trade_price pcs r = some p) ∧
    ((r.price_yesterday = none ∨ r.price_yesterday = some 0) →
      trade_price pcs r = pricesFor pcs r.isin (nextDay r.date_today)) ∧
    (∀ m, pricesFor pcs r.isin (nextDay r.date_today) = some m →
      0 < m ∧
      (∃ x ∈ pcs, x.isin = r.isin ∧ x.date_today = nextDay r.date_today ∧
        x.price_yesterday = some m) ∧
      (∀ x ∈ pcs, x.isin = r.isin → x.date_today = nextDay r.date_today →
        ∀ q, x.price_yesterday = some q → 0 < q → q ≤ m)) ∧
    (tradePricePos pcs r = false →
      r ∉ eierIncluded pcs inv a b ∧ r ∉ aksjeIncluded pcs i a b) := by
  refine ⟨?_, ?_, ?_, ?_⟩
  · intro p hp hp0
    simp [trade_price, nullif, coalesce, hp, hp0]
  · rintro (hp | hp) <;> simp [trade_price, nullif, coalesce, hp]
  · intro m hm
    exact pricesFor_spec pcs r.isin (nextDay r.date_today) m hm
  · intro hneg
    constructor
    · intro hmem
      have := (List.mem_filter.mp hmem).2
      rw [hneg] at this
      exact Bool.false_ne_true this
    · intro hmem
      have := (List.mem_filter.mp hmem).2
      rw [hneg] at this
      exact Bool.false_ne_true this

def c1wRow : PositionChangeRow :=
  ⟨"X1", "I1", ⟨2024, 1, 10⟩, none, none, none, none, none, some 10, none,
    none, none, none, none, "f.csv"⟩

def c1wNext : PositionChangeRow :=
  ⟨"X1", "I2", ⟨2024, 1, 11⟩, none, none, none, none, some 7, some 3, none,
    none, none, none, none, "f.csv"⟩

def c1wNoPos : PositionChangeRow :=
  ⟨"X1", "I1", ⟨2024, 3, 10⟩, none, none, none, none, some 0, some 4, none,
    none, none, none, none, "f.csv"⟩

def c1wPcs : List PositionChangeRow := [c1wRow, c1wNext, c1wNoPos]

theorem claim_C1_trade_price_resolution_witness :
    trade_price c1wPcs c1wRow = pricesFor c1wPcs "X1" (nextDay ⟨2024, 1, 10⟩) ∧
    c1wNoPos ∉ eierIncluded c1wPcs "I1" ⟨2024, 1, 1⟩ ⟨2024, 12, 31⟩ := by
  refine ⟨?_, ?_⟩
  · exact (claim_C1_trade_price_resolution c1wPcs c1wRow "I1" "X1"
      ⟨2024, 1, 1⟩ ⟨2024, 12, 31⟩).2.1 (Or.inl rfl)
  · exact ((claim_C1_trade_price_resolution c1wPcs c1wNoPos "I1" "X1"
      ⟨2024, 1, 1⟩ ⟨2024, 12, 31⟩).2.2.2 (by decide)).1

def c1xRow : PositionChangeRow :=
  ⟨"X1", "I1", ⟨2024, 1, 10⟩, none, none, none, none, some (-1), some 10, none,
    none, none, none, none, "f.csv"⟩

def c1xNext : PositionChangeRow :=
  ⟨"X1", "I2", ⟨2024, 1, 11⟩, none, none, none, none, some 5, some 3, none,
    none, none, none, none, "f.csv"⟩

def c1xPcs : List PositionChangeRow := [c1xRow, c1xNext]

/-- C1 counterexample: a fact row whose recorded price is negative — hence
not strictly positive — does NOT resolve to the next day's observed price:
`NULLIF(price_yesterday, 0)` only diverts null/zero, so the negative recorded
value is kept (the row is then dropped by the positivity filter). The claim's
"otherwise it equals the next calendar day's observed price" fails here. -/
theorem claim_C1_counterexample :
    (¬0 < coalesceD c1xRow.price_yesterday 0) ∧
    pricesFor c1xPcs c1xRow.isin (nextDay c1xRow.date_today) = some 5 ∧
    trade_price c1xPcs c1xRow = some (-1) ∧
    trade_price c1xPcs c1xRow ≠
      pricesFor c1xPcs c1xRow.isin (nextDay c1xRow.date_today) := by
  decide

/-- C10 (amended): the fallback looks ahead exactly one calendar day and
never recurses: when the recorded price is not strictly positive and no fact
row of the same security dated exactly one day later carries a strictly
positive recorded price, the resolved trade price is not strictly positive —
null when the recorded price is null or zero — and the row is excluded from
the aggregations of both analysis queries, even if some later date (for
example across a weekend) has a positive price. -/
theorem claim_C10_one_day_lookahead (pcs : List PositionChangeRow)
    (r : PositionChangeRow) (inv i : String) (a b : Date)
    (hrec : ¬0 < coalesceD r.price_yesterday 0)
    (hnext : ∀ x ∈ pcs, x.isin = r.isin → x.date_today = nextDay r.date_today →
      ¬0 < coalesceD x.price_yesterday 0) :
    ((r.price_yesterday = none ∨ r.price_yesterday = some 0) →
      trade_price pcs r = none) ∧
    tradePricePos pcs r = false ∧
    r ∉ eierIncluded pcs inv a b ∧
    r ∉ aksjeIncluded pcs i a b := by
  have hempty : pricesFor pcs r.isin (nextDay r.date_today) = none := by
    unfold pricesFor
    have : (pcs.filterMap fun x =>
        if x.isin = r.isin ∧ x.date_today = nextDay r.date_today ∧
            0 < coalesceD x.price_yesterday 0 then
          x.price_yesterday
        else none) = [] := by
      rw [List.filterMap_eq_nil_iff]
      intro x hx
      by_cases hc : x.isin = r.isin ∧ x.date_today = nextDay r.date_today ∧
          0 < coalesceD x.price_yesterday 0
      · exact absurd hc.2.2 (hnext x hx hc.1 hc.2.1)
      · simp [hc]
    rw [this]
    rfl
  have htp : tradePricePos pcs r = false := by
    unfold tradePricePos
    cases hp : r.price_yesterday with
    | none => simp [trade_price, nullif, coalesce, hp, hempty, coalesceD]
    | some p =>
      by_cases hp0 : p = 0
      · simp [trade_price, nullif, coalesce, hp, hp0, hempty, coalesceD]
      · have hple : ¬0 < p := by
          rw [hp] at hrec
          simpa [coalesceD] using hrec
        simp [trade_price, nullif, coalesce, hp, hp0, coalesceD, hple]
  refine ⟨?_, htp, ?_, ?_⟩
  · rintro (hp | hp) <;> simp [trade_price, nullif, coalesce, hp, hempty]
  · intro hmem
    have := (List.mem_filter.mp hmem).2
    rw [htp] at this
    exact Bool.false_ne_true this
  · intro hmem
    have := (List.mem_filter.mp hmem).2
    rw [htp] at this
    exact Bool.false_ne_true this

def c10wRow : PositionChangeRow :=
  ⟨"X1", "I1", ⟨2024, 1, 10⟩, none, none, none, none, some 0, some 10, none,
    none, none, none, none, "f.csv"⟩

def c10wLater : PositionChangeRow :=
  ⟨"X1", "I2", ⟨2024, 1, 13⟩, none, none, none, none, some 8, some 3, none,
    none, none, none, none, "f.csv"⟩

def c10wPcs : List PositionChangeRow := [c10wRow, c10wLater]

theorem claim_C10_one_day_lookahead_witness :
    trade_price c10wPcs c10wRow = none ∧
    c10wRow ∉ eierIncluded c10wPcs "I1" ⟨2024, 1, 1⟩ ⟨2024, 12, 31⟩ := by
  refine ⟨?_, ?_⟩
  · exact (claim_C10_one_day_lookahead c10wPcs c10wRow "I1" "X1"
      ⟨2024, 1, 1⟩ ⟨2024, 12, 31⟩ (by decide) (by decide)).1 (Or.inr rfl)
  · exact (claim_C10_one_day_lookahead c10wPcs c10wRow "I1" "X1"
      ⟨2024, 1, 1⟩ ⟨2024, 12, 31⟩ (by decide) (by decide)).2.2.1

def c10xRow : PositionChangeRow :=
  ⟨"X1", "I1", ⟨2024, 1, 10⟩, none, none, none, none, some (-1), some 10, none,
    none, none, none, none, "f.csv"⟩

def c10xLater : PositionChangeRow :=
  ⟨"X1", "I2", ⟨2024, 1, 13⟩, none, none, none, none, some 8, some 3, none,
    none, none, none, none, "f.csv"⟩

def c10xPcs : List PositionChangeRow := [c10xRow, c10xLater]

/-- C10 counterexample: the claim asserts the resolved trade price is null
for every row with a non-strictly-positive recorded price and no positive
price one day later; but for a negative recorded price the code resolves to
that negative value, not null (the row is still excluded downstream). -/
theorem claim_C10_counterexample :
    (¬0 < coalesceD c10xRow.price_yesterday 0) ∧
    (∀ x ∈ c10xPcs, x.isin = c10xRow.isin →
      x.date_today = nextDay c10xRow.date_today →
      ¬0 < coalesceD x.price_yesterday 0) ∧
    (∃ x ∈ c10xPcs, x.isin = c10xRow.isin ∧
      dateLt c10xRow.date_today x.date_today = true ∧
      0 < coalesceD x.price_yesterday 0) ∧
    trade_price c10xPcs c10xRow ≠ none := by
  decide

/-! ## Claim C3 — selection of files to ingest -/

theorem dateLt_eq_false_iff (a b : Date) : dateLt a b = false ↔ dateLe b a = true := by
  simp only [dateLt, dateLe, Bool.or_eq_false_iff, Bool.or_eq_true,
    Bool.and_eq_false_iff, Bool.and_eq_true, decide_eq_true_eq,
    decide_eq_false_iff_not, beq_iff_eq, beq_eq_false_iff_ne, ne_eq]
  omega

theorem window_iff (d : Date) :
    (dateLt d datoStart || dateLt datoEnd d) = false ↔
      (dateLe datoStart d = true ∧ dateLe d datoEnd = true) := by
  constructor
  · intro h
    rcases Bool.or_eq_false_iff.mp h with ⟨h1, h2⟩
    exact ⟨(dateLt_eq_false_iff d datoStart).mp h1,
      (dateLt_eq_false_iff datoEnd d).mp h2⟩
  · rintro ⟨h1, h2⟩
    exact Bool.or_eq_false_iff.mpr ⟨(dateLt_eq_false_iff d datoStart).mpr h1,
      (dateLt_eq_false_iff datoEnd d).mpr h2⟩

theorem fileWanted_iff (ledger : List IngestedFileRow) (e : CatalogEntry) :
    fileWanted ledger e = true ↔
      (∃ d, parse_file_date_from_name e.name = some d ∧
        dateLe datoStart d = true ∧ dateLe d datoEnd = true) ∧
      (ledgerLookup ledger e.name = none ∨
        ∃ m, ledgerLookup ledger e.name = some m ∧ m ≠ e.mtime) := by
  cases hp : parse_file_date_from_name e.name with
  | none => simp [fileWanted, hp]
  | some d =>
    by_cases hw : (dateLt d datoStart || dateLt datoEnd d) = true
    · have hnwin : ¬(dateLe datoStart d = true ∧ dateLe d datoEnd = true) := by
        intro hwin
        rw [(window_iff d).mpr hwin] at hw
        exact Bool.false_ne_true hw
      simp only [fileWanted, hp, hw, if_true]
      constructor
      · intro h
        exact absurd h Bool.false_ne_true
      · rintro ⟨⟨d', hd', hge, hle⟩, -⟩
        obtain rfl : d = d' := by injection hd'
        exact absurd ⟨hge, hle⟩ hnwin
    · have hwf : (dateLt d datoStart || dateLt datoEnd d) = false :=
        Bool.eq_false_iff.mpr hw
      have hwin := (window_iff d).mp hwf
      cases hl : ledgerLookup ledger e.name with
      | none =>
        simp only [fileWanted, hp, hwf, Bool.false_eq_true, if_false, hl]
        simp [hwin]
      | some m =>
        simp only [fileWanted, hp, hwf, Bool.false_eq_true, if_false, hl,
          decide_eq_true_eq]
        constructor
        · intro hne
          exact ⟨⟨d, rfl, hwin.1, hwin.2⟩, Or.inr ⟨m, rfl, hne⟩⟩
        · rintro ⟨-, hcase⟩
          rcases hcase with hnone | ⟨m', hm', hne⟩
          · exact absurd hnone (by simp)
          · obtain rfl : m = m' := by injection hm'
            exact hne

/-- C3: `get_files_to_ingest` returns exactly the catalog filenames that
carry the fixed prefix followed by a parseable two-digit year/month/day
whose embedded date lies inside the configured window, and that are either
absent from the `ingested_files` ledger or have an on-disk mtime different
from the recorded one; a file recorded with an equal mtime is never
selected; and the returned list is sorted. -/
theorem claim_C3_file_selection (ledger : List IngestedFileRow)
    (catalog : List CatalogEntry) :
    (∀ fn, fn ∈ get_files_to_ingest ledger catalog ↔
      ∃ mt, CatalogEntry.mk fn mt ∈ catalog ∧
        (∃ d, parse_file_date_from_name fn = some d ∧
          dateLe datoStart d = true ∧ dateLe d datoEnd = true) ∧
        (ledgerLookup ledger fn = none ∨
          ∃ m, ledgerLookup ledger fn = some m ∧ m ≠ mt)) ∧
    (∀ e ∈ catalog, ledgerLookup ledger e.name = some e.mtime →
      (∀ e' ∈ catalog, e'.name = e.name → e'.mtime = e.mtime) →
      e.name ∉ get_files_to_ingest ledger catalog) ∧
    List.Pairwise (fun x y => strLe x y = true) (get_files_to_ingest ledger catalog) := by
  refine ⟨?_, ?_, ?_⟩
  · intro fn
    unfold get_files_to_ingest
    rw [List.mem_mergeSort, List.mem_map]
    constructor
    · rintro ⟨e, he, rfl⟩
      obtain ⟨hec, hw⟩ := List.mem_filter.mp he
      obtain ⟨hdate, hledger⟩ := (fileWanted_iff ledger e).mp hw
      exact ⟨e.mtime, by cases e; exact hec, hdate, hledger⟩
    · rintro ⟨mt, hmem, hdate, hledger⟩
      refine ⟨⟨fn, mt⟩, List.mem_filter.mpr ⟨hmem, ?_⟩, rfl⟩
      exact (fileWanted_iff ledger ⟨fn, mt⟩).mpr ⟨hdate, hledger⟩
  · intro e he hrec huniq hmem
    unfold get_files_to_ingest at hmem
    rw [List.mem_mergeSort, List.mem_map] at hmem
    obtain ⟨e', he', hname⟩ := hmem
    obtain ⟨hec', hw'⟩ := List.mem_filter.mp he'
    obtain ⟨-, hledger⟩ := (fileWanted_iff ledger e').mp hw'
    have hmt : e'.mtime = e.mtime := huniq e' hec' hname
    rw [hname] at hledger
    rcases hledger with hnone | ⟨m, hm, hne⟩
    · rw [hrec] at hnone
      exact Option.some_ne_none _ hnone
    · rw [hrec] at hm
      obtain rfl : e.mtime = m := by injection hm
      exact hne hmt.symm
  · exact List.sorted_mergeSort strLe_trans strLe_total _

def c3Ledger : List IngestedFileRow :=
  [⟨"TopChanges_Nordea_Invest_DAG_240115.csv", 5, "t"⟩]

def c3Catalog : List CatalogEntry :=
  [⟨"TopChanges_Nordea_Invest_DAG_240116.csv", 7⟩,
   ⟨"TopChanges_Nordea_Invest_DAG_240115.csv", 5⟩,
   ⟨"junk.txt", 3⟩]

theorem claim_C3_file_selection_witness :
    "TopChanges_Nordea_Invest_DAG_240116.csv" ∈ get_files_to_ingest c3Ledger c3Catalog ∧
    "TopChanges_Nordea_Invest_DAG_240115.csv" ∉ get_files_to_ingest c3Ledger c3Catalog := by
  constructor
  · exact ((claim_C3_file_selection c3Ledger c3Catalog).1
      "TopChanges_Nordea_Invest_DAG_240116.csv").mpr
      ⟨7, by decide, ⟨⟨2024, 1, 16⟩, by decide, by decide, by decide⟩, by decide⟩
  · exact (claim_C3_file_selection c3Ledger c3Catalog).2.1
      ⟨"TopChanges_Nordea_Invest_DAG_240115.csv", 5⟩ (by decide) (by decide)
      (by decide)

/-! ## Claim C7 — date normalization -/

theorem isSpaceC_eq_false_of_digit (c : Char) (h : isDigitC c = true) :
    isSpaceC c = false := by
  simp only [isDigitC, Bool.and_eq_true, decide_eq_true_eq] at h
  simp only [isSpaceC, Bool.or_eq_false_iff, Bool.and_eq_false_iff,
    beq_eq_false_iff_ne, ne_eq, decide_eq_false_iff_not]
  omega

theorem dropWhile_eq_self_of {α : Type} (p : α → Bool) (l : List α)
    (h : ∀ c ∈ l, p c = false) : l.dropWhile p = l := by
  cases l with
  | nil => rfl
  | cons x xs => simp [List.dropWhile, h x (List.mem_cons_self x xs)]

theorem pyStripL_all_digits (l : List Char) (h : l.all isDigitC = true) :
    pyStripL l = l := by
  have hns : ∀ c ∈ l, isSpaceC c = false := fun c hc =>
    isSpaceC_eq_false_of_digit c (List.all_eq_true.mp h c hc)
  unfold pyStripL
  rw [dropWhile_eq_self_of isSpaceC l hns,
    dropWhile_eq_self_of isSpaceC l.reverse
      (fun c hc => hns c (List.mem_reverse.mp hc)),
    List.reverse_reverse]

theorem lowerC_of_digit (c : Char) (h : isDigitC c = true) : lowerC c = c := by
  simp only [isDigitC, Bool.and_eq_true, decide_eq_true_eq] at h
  unfold lowerC
  rw [if_neg]
  simp only [Bool.and_eq_true, decide_eq_true_eq, not_and]
  omega

theorem pyLowerL_digits_ne_nan (l : List Char) (hne : l ≠ [])
    (h : l.all isDigitC = true) : pyLowerL l ≠ ['n', 'a', 'n'] := by
  cases l with
  | nil => exact absurd rfl hne
  | cons x xs =>
    have hx : isDigitC x = true := (List.all_eq_true.mp h) x (List.mem_cons_self x xs)
    simp only [pyLowerL, List.map_cons, ne_eq, List.cons.injEq, not_and]
    intro hxn
    rw [lowerC_of_digit x hx] at hxn
    rw [hxn] at hx
    exact absurd hx (by decide)

theorem normalizeDateCore_digits (generic : List Char → Option Date)
    (l : List Char) (hne : l ≠ []) (hdig : l.all isDigitC = true) :
    normalizeDateCore generic l =
      (if l.length = 8 then
        (mkDate (digitsToNat (l.take 4)) (digitsToNat ((l.drop 4).take 2))
          (digitsToNat (l.drop 6))).map Date.iso
      else if l.length = 6 then
        (mkDate (2000 + digitsToNat (l.take 2)) (digitsToNat ((l.drop 2).take 2))
          (digitsToNat (l.drop 4))).map Date.iso
      else if 20000 ≤ digitsToNat l ∧ digitsToNat l ≤ 80000 then
        some (Date.iso (dateOfSerial (digitsToNat l)))
      else (generic l).map Date.iso) := by
  simp only [normalizeDateCore, pyStripL_all_digits l hdig]
  rw [if_neg hne, if_neg (pyLowerL_digits_ne_nan l hne hdig), if_pos hdig]

theorem normalizeDateCore_generic (generic : List Char → Option Date)
    (l : List Char) (hne : pyStripL l ≠ [])
    (hnan : pyLowerL (pyStripL l) ≠ ['n', 'a', 'n'])
    (hnd : (pyStripL l).all isDigitC = false) :
    normalizeDateCore generic l = (generic (pyStripL l)).map Date.iso := by
  simp only [normalizeDateCore]
  rw [if_neg hne, if_neg hnan, if_neg (by simp [hnd])]

/-- C7: the three numeric encodings — 8-digit `YYYYMMDD`, 6-digit `YYMMDD`
anchored at year `2000+YY`, and a serial day number in `[20000, 80000]`
counted from 1899-12-30 — normalize to the same canonical ISO date when they
denote the same calendar day (`"20240115"`, `"240115"` and serial `45306`
all yield `"2024-01-15"`; prefixing any 6-digit string with `"20"` never
changes the result); every other string goes through the generic free-form
parser; blank, `"nan"` (case-insensitively, after stripping) and unparseable
inputs yield null; and the function is total — it never raises. -/
theorem claim_C7_date_normalization (generic : List Char → Option Date) :
    normalize_date generic "20240115" = some "2024-01-15" ∧
    normalize_date generic "240115" = some "2024-01-15" ∧
    normalize_date generic "45306" = some "2024-01-15" ∧
    (∀ l : List Char, l.length = 6 → l.all isDigitC = true →
      normalize_date generic ⟨'2' :: '0' :: l⟩ = normalize_date generic ⟨l⟩) ∧
    (∀ l : List Char, l ≠ [] → l.all isDigitC = true → l.length ≠ 6 →
      l.length ≠ 8 → 20000 ≤ digitsToNat l → digitsToNat l ≤ 80000 →
      normalize_date generic ⟨l⟩ = some (Date.iso (dateOfSerial (digitsToNat l)))) ∧
    normalize_date generic "" = none ∧
    normalize_date generic " nan " = none ∧
    normalize_date generic "NaN" = none ∧
    (∀ s : String, pyStripL s.data ≠ [] →
      pyLowerL (pyStripL s.data) ≠ ['n', 'a', 'n'] →
      (pyStripL s.data).all isDigitC = false →
      normalize_date generic s = (generic (pyStripL s.data)).map Date.iso) := by
  refine ⟨rfl, rfl, rfl, ?_, ?_, rfl, rfl, rfl, ?_⟩
  · intro l hlen hdig
    rcases l with - | ⟨a, l⟩; · simp at hlen
    rcases l with - | ⟨b, l⟩; · simp at hlen
    rcases l with - | ⟨c, l⟩; · simp at hlen
    rcases l with - | ⟨d, l⟩; · simp at hlen
    rcases l with - | ⟨e, l⟩; · simp at hlen
    rcases l with - | ⟨f, l⟩; · simp at hlen
    rcases l with - | ⟨g, l⟩
    swap
    · simp at hlen
    have hdig8 : ('2' :: '0' :: [a, b, c, d, e, f]).all isDigitC = true := by
      simp only [List.all_cons, Bool.and_eq_true]
      exact ⟨by decide, by decide, by simpa [List.all_cons] using hdig⟩
    have h8 := normalizeDateCore_digits generic ('2' :: '0' :: [a, b, c, d, e, f])
      (by simp) hdig8
    have h6 := normalizeDateCore_digits generic [a, b, c, d, e, f] (by simp) hdig
    show normalizeDateCore generic ('2' :: '0' :: [a, b, c, d, e, f]) =
      normalizeDateCore generic [a, b, c, d, e, f]
    rw [h8, h6]
    have hy : digitsToNat ['2', '0', a, b] = 2000 + digitsToNat [a, b] := by
      have h2 : digitVal '2' = 2 := rfl
      have h0 : digitVal '0' = 0 := rfl
      simp only [digitsToNat, List.foldl, h2, h0]
      omega
    simp only [List.length_cons, List.length_nil, List.take, List.drop]
    norm_num
    rw [hy]
    push_cast
    ring_nf
  · intro l hne hdig h6 h8 hlo hhi
    show normalizeDateCore generic l = _
    rw [normalizeDateCore_digits generic l hne hdig]
    rw [if_neg (by omega), if_neg (by omega), if_pos ⟨hlo, hhi⟩]
  · intro s hne hnan hnd
    exact normalizeDateCore_generic generic s.data hne hnan hnd

theorem claim_C7_date_normalization_witness :
    normalize_date (fun _ => none) "20240115" = some "2024-01-15" ∧
    normalize_date (fun _ => none) "45306" = some "2024-01-15" ∧
    normalize_date (fun _ => none) "garbage" = none := by
  refine ⟨(claim_C7_date_normalization (fun _ => none)).1,
    (claim_C7_date_normalization (fun _ => none)).2.2.1, ?_⟩
  have h := (claim_C7_date_normalization (fun _ => none)).2.2.2.2.2.2.2.2
    "garbage" (by decide) (by decide) (by decide)
  simpa using h

/-! ## Claim C8 — mandatory columns fatal, cell-level failures -/

/-- The record `parseFactRow` produces once the three flag/rank lambdas have
succeeded. -/
def factRowOf (generic : List Char → Option Date) (f : SourceFile)
    (row : List (String × Option String)) (v1 v2 v3 : Option Int) : FactRaw :=
  { isin := strCellStr (colCell row (pick_col f.cols aliasesIsin))
    investor_id := strCellStr (colCell row (pick_col f.cols aliasesInvestorId))
    date_today := normalizeDateCell generic (colCell row (pick_col f.cols aliasesDateToday))
    date_yesterday :=
      match pick_col f.cols aliasesDateYest with
      | none => none
      | some c => normalizeDateCell generic (cellAt row c)
    holding_today := (colCell row (pick_col f.cols aliasesHToday)).bind fun s => clean_num s
    holding_yesterday := (colCell row (pick_col f.cols aliasesHYest)).bind fun s => clean_num s
    price_today := (colCell row (pick_col f.cols aliasesPriceToday)).bind fun s => clean_num s
    price_yesterday := (colCell row (pick_col f.cols aliasesPriceYest)).bind fun s => clean_num s
    change_qty := (colCell row (pick_col f.cols aliasesChange)).bind fun s => clean_num s
    abs_change_qty := (colCell row (pick_col f.cols aliasesAbsChange)).bind fun s => clean_num s
    change_percent := (colCell row (pick_col f.cols aliasesChangePct)).bind fun s => clean_num s
    flag_new_source := v1
    flag_exit_source := v2
    rank := v3
    source_file := f.name }

theorem parseFactRow_eval (generic : List Char → Option Date) (f : SourceFile)
    (row : List (String × Option String)) (v1 v2 v3 : Option Int)
    (hv1 : flagField row (pick_col f.cols aliasesFlagNew) = .ok v1)
    (hv2 : flagField row (pick_col f.cols aliasesFlagExit) = .ok v2)
    (hv3 : flagField row (pick_col f.cols aliasesRank) = .ok v3) :
    parseFactRow generic f row = .ok (factRowOf generic f row v1 v2 v3) := by
  simp only [parseFactRow, hv1, hv2, hv3]
  rfl

theorem parseFactRow_ok (generic : List Char → Option Date) (f : SourceFile)
    (row : List (String × Option String))
    (h1 : ∃ v, flagField row (pick_col f.cols aliasesFlagNew) = .ok v)
    (h2 : ∃ v, flagField row (pick_col f.cols aliasesFlagExit) = .ok v)
    (h3 : ∃ v, flagField row (pick_col f.cols aliasesRank) = .ok v) :
    ∃ fr, parseFactRow generic f row = .ok fr ∧
      fr.date_today =
        normalizeDateCell generic (colCell row (pick_col f.cols aliasesDateToday)) ∧
      fr.price_today =
        (colCell row (pick_col f.cols aliasesPriceToday)).bind fun s => clean_num s := by
  obtain ⟨v1, hv1⟩ := h1
  obtain ⟨v2, hv2⟩ := h2
  obtain ⟨v3, hv3⟩ := h3
  exact ⟨factRowOf generic f row v1 v2 v3,
    parseFactRow_eval generic f row v1 v2 v3 hv1 hv2 hv3, rfl, rfl⟩

theorem mapExcept_ok {α β : Type} (g : α → Except String β) (l : List α)
    (h : ∀ x ∈ l, ∃ y, g x = .ok y) :
    ∃ ys, mapExcept g l = .ok ys ∧ ys.length = l.length := by
  induction l with
  | nil => exact ⟨[], rfl, rfl⟩
  | cons x xs ih =>
    obtain ⟨y, hy⟩ := h x (List.mem_cons_self x xs)
    obtain ⟨ys, hys, hlen⟩ := ih fun z hz => h z (List.mem_cons_of_mem x hz)
    refine ⟨y :: ys, ?_, by simp [hlen]⟩
    simp only [mapExcept, hy, hys]
    rfl

/-- C8 (amended): a file in which any of the three mandatory columns
(security identifier, investor identifier, primary observation date) is
entirely absent raises a fatal error whose message names the file. For a file
that has the mandatory columns, unparseable individual date and number cells
resolve to null and never abort the file, and flag/rank cells resolve to
null when blank or `"nan"` — but a non-blank, non-`"nan"` flag/rank cell
that does not parse as a number raises an uncaught error that aborts the
file (the flag lambdas have no `try`/`except`). -/
theorem claim_C8_mandatory_and_cell_errors (generic : List Char → Option Date)
    (f : SourceFile) :
    ((pick_col f.cols aliasesIsin).isNone ∨
        (pick_col f.cols aliasesInvestorId).isNone ∨
        (pick_col f.cols aliasesDateToday).isNone →
      ingest_parse generic f = .error (mandatoryMsg f.name) ∧
        ∃ pre post, mandatoryMsg f.name = pre ++ f.name ++ post) ∧
    (¬((pick_col f.cols aliasesIsin).isNone ∨
        (pick_col f.cols aliasesInvestorId).isNone ∨
        (pick_col f.cols aliasesDateToday).isNone) →
      (∀ row ∈ f.rows,
        (∃ v, flagField row (pick_col f.cols aliasesFlagNew) = .ok v) ∧
        (∃ v, flagField row (pick_col f.cols aliasesFlagExit) = .ok v) ∧
        (∃ v, flagField row (pick_col f.cols aliasesRank) = .ok v)) →
      ∃ facts, ingest_parse generic f = .ok facts ∧
        facts.length = f.rows.length) ∧
    (∀ row ∈ f.rows, ∀ fr, parseFactRow generic f row = .ok fr →
      fr.date_today =
        normalizeDateCell generic (colCell row (pick_col f.cols aliasesDateToday)) ∧
      fr.price_today =
        (colCell row (pick_col f.cols aliasesPriceToday)).bind fun s => clean_num s) := by
  refine ⟨?_, ?_, ?_⟩
  · intro h
    refine ⟨?_, "Mangler nødvendige kolonner i ",
      ". Trenger minst ISIN, investor_id og DatoIdag.", rfl⟩
    unfold ingest_parse
    rw [if_pos h]
  · intro h hrows
    obtain ⟨ys, hys, hlen⟩ := mapExcept_ok (parseFactRow generic f) f.rows
      fun row hrow => by
        obtain ⟨hf1, hf2, hf3⟩ := hrows row hrow
        obtain ⟨fr, hfr, -, -⟩ := parseFactRow_ok generic f row hf1 hf2 hf3
        exact ⟨fr, hfr⟩
    refine ⟨ys, ?_, hlen⟩
    unfold ingest_parse
    rw [if_neg h]
    exact hys
  · intro row hrow fr hfr
    by_cases h1 : ∃ v, flagField row (pick_col f.cols aliasesFlagNew) = .ok v
    · by_cases h2 : ∃ v, flagField row (pick_col f.cols aliasesFlagExit) = .ok v
      · by_cases h3 : ∃ v, flagField row (pick_col f.cols aliasesRank) = .ok v
        · obtain ⟨fr', hfr', hd, hp⟩ := parseFactRow_ok generic f row h1 h2 h3
          rw [hfr] at hfr'
          obtain rfl : fr = fr' := by injection hfr'
          exact ⟨hd, hp⟩
        · exfalso
          rcases he : flagField row (pick_col f.cols aliasesRank) with m | v
          · obtain ⟨v1, hv1⟩ := h1
            obtain ⟨v2, hv2⟩ := h2
            rw [show parseFactRow generic f row = .error m by
              simp only [parseFactRow, hv1, hv2, he]; rfl] at hfr
            exact Except.noConfusion hfr
          · exact h3 ⟨v, he⟩
      · exfalso
        rcases he : flagField row (pick_col f.cols aliasesFlagExit) with m | v
        · obtain ⟨v1, hv1⟩ := h1
          rw [show parseFactRow generic f row = .error m by
            simp only [parseFactRow, hv1, he]; rfl] at hfr
          exact Except.noConfusion hfr
        · exact h2 ⟨v, he⟩
    · exfalso
      rcases he : flagField row (pick_col f.cols aliasesFlagNew) with m | v
      · rw [show parseFactRow generic f row = .error m by
          simp only [parseFactRow, he]; rfl] at hfr
        exact Except.noConfusion hfr
      · exact h1 ⟨v, he⟩

def c8Bad : SourceFile :=
  { name := "TopChanges_Nordea_Invest_DAG_240117.csv"
    cols := ["ISIN", "DatoIdag", "Kurs idag"]
    rows := [] }

def c8Good : SourceFile :=
  { name := "TopChanges_Nordea_Invest_DAG_240116.csv"
    cols := ["ISIN", "New_ID", "DatoIdag", "Kurs idag", "Ny"]
    rows := [[("ISIN", some "NO001"), ("New_ID", some "I1"),
      ("DatoIdag", some "not a date"), ("Kurs idag", some "garbage"),
      ("Ny", some "1.0")]] }

theorem claim_C8_mandatory_and_cell_errors_witness :
    ingest_parse (fun _ => none) c8Bad = .error (mandatoryMsg c8Bad.name) ∧
    ∃ facts, ingest_parse (fun _ => none) c8Good = .ok facts ∧
      facts.length = c8Good.rows.length := by
  constructor
  · exact ((claim_C8_mandatory_and_cell_errors (fun _ => none) c8Bad).1
      (by decide)).1
  · refine (claim_C8_mandatory_and_cell_errors (fun _ => none) c8Good).2.1
      (by decide) ?_
    intro row hrow
    rw [List.mem_singleton.mp hrow]
    exact ⟨⟨some 1, by decide⟩, ⟨none, by decide⟩, ⟨none, by decide⟩⟩

def c8Flag : SourceFile :=
  { name := "TopChanges_Nordea_Invest_DAG_240115.csv"
    cols := ["ISIN", "New_ID", "DatoIdag", "Ny"]
    rows := [[("ISIN", some "NO001"), ("New_ID", some "I1"),
      ("DatoIdag", some "20240115"), ("Ny", some "x")]] }

/-- C8 counterexample: a file that has all three mandatory columns but whose
`Ny` (new-flag) column contains the unparseable cell `"x"` aborts the whole
file with an uncaught `ValueError` from `int(float(x))` — contradicting the
claim that an unparseable individual cell never aborts a file that has the
mandatory columns. -/
theorem claim_C8_counterexample :
    (pick_col c8Flag.cols aliasesIsin).isSome ∧
    (pick_col c8Flag.cols aliasesInvestorId).isSome ∧
    (pick_col c8Flag.cols aliasesDateToday).isSome ∧
    ingest_parse (fun _ => none) c8Flag =
      .error "could not convert string to float: x" := by
  refine ⟨rfl, rfl, rfl, rfl⟩

/-! ## Claim C9 — derived-store rebuild and failure behaviour -/

theorem ne_append_of_pos (p s : String) (hs : 0 < s.length) : p ≠ p ++ s := by
  intro h
  have := congrArg String.length h
  rw [String.length_append] at this
  omega

/-- C9 (amended): `build_recent_db` rebuilds the derived store in place at
the output path: its first action deletes the existing artifact there
(`nuke_sqlite_files`), long before any consistency check runs; every other
path is untouched; after the build the freshly built snapshot sits at the
output path; and when the post-build integrity check fails the run aborts
with the raised error while that freshly built store — not the old artifact —
remains at the path. -/
theorem claim_C9_rebuild_in_place (check : DB → Bool) (src : DB) (cutoff : Date)
    (p : String) (fs : FS) :
    nuke_sqlite_files p fs p = none ∧
    (∀ g ∈ build_recent_trace src cutoff p fs, ∀ q, q ≠ p → q ≠ p ++ "-wal" →
      q ≠ p ++ "-shm" → q ≠ p ++ "-journal" → g q = fs q) ∧
    (run_build_recent check src cutoff p fs).1 p = some (build_recent src cutoff) ∧
    (check (build_recent src cutoff) = false →
      (run_build_recent check src cutoff p fs).2 =
        .error "Lokal RECENT DB feilet integrity_check etter bygg." ∧
      ∀ db : DB, db ≠ build_recent src cutoff →
        (run_build_recent check src cutoff p fs).1 p ≠ some db) ∧
    (check (build_recent src cutoff) = true →
      (run_build_recent check src cutoff p fs).2 = .ok ()) := by
  refine ⟨?_, ?_, ?_, ?_, ?_⟩
  · unfold nuke_sqlite_files fsRemove
    rw [if_neg (ne_append_of_pos p "-journal" (by decide)),
      if_neg (ne_append_of_pos p "-shm" (by decide)),
      if_neg (ne_append_of_pos p "-wal" (by decide)), if_pos rfl]
  · intro g hg q hq hqw hqs hqj
    have hrem : nuke_sqlite_files p fs q = fs q := by
      unfold nuke_sqlite_files fsRemove
      rw [if_neg hqj, if_neg hqs, if_neg hqw, if_neg hq]
    simp only [build_recent_trace, List.mem_cons, List.mem_singleton,
      List.not_mem_nil, or_false] at hg
    rcases hg with rfl | rfl | rfl | rfl | rfl
    · rfl
    · exact hrem
    · unfold fsSet
      rw [if_neg hq]
      exact hrem
    · unfold fsSet
      rw [if_neg hq, if_neg hq]
      exact hrem
    · unfold fsSet
      rw [if_neg hq, if_neg hq, if_neg hq]
      exact hrem
  · unfold run_build_recent fsSet
    show (if p = p then some (build_recent src cutoff)
      else if p = p then some (copiedDB src cutoff)
      else if p = p then some emptyDB else nuke_sqlite_files p fs p) =
        some (build_recent src cutoff)
    rw [if_pos rfl]
  · intro hfail
    constructor
    · unfold run_build_recent
      simp [hfail]
    · intro db hdb
      unfold run_build_recent fsSet
      show ¬(if p = p then some (build_recent src cutoff)
        else if p = p then some (copiedDB src cutoff)
        else if p = p then some emptyDB else nuke_sqlite_files p fs p) =
          some db
      rw [if_pos rfl]
      intro hc
      have h : build_recent src cutoff = db := by injection hc
      exact hdb h.symm
  · intro hok
    unfold run_build_recent
    simp [hok]

def c9Old : DB := ⟨[⟨"I1", none, none, none, none, none⟩], [], [], []⟩

def c9Fs : FS := fun q =>
  if q = "topchanges_recent_60d.db" then some c9Old else none

theorem claim_C9_rebuild_in_place_witness :
    nuke_sqlite_files "topchanges_recent_60d.db" c9Fs "topchanges_recent_60d.db" = none ∧
    (run_build_recent (fun _ => false) emptyDB ⟨2024, 1, 1⟩
        "topchanges_recent_60d.db" c9Fs).2 =
      .error "Lokal RECENT DB feilet integrity_check etter bygg." := by
  refine ⟨(claim_C9_rebuild_in_place (fun _ => false) emptyDB ⟨2024, 1, 1⟩
    "topchanges_recent_60d.db" c9Fs).1, ?_⟩
  exact ((claim_C9_rebuild_in_place (fun _ => false) emptyDB ⟨2024, 1, 1⟩
    "topchanges_recent_60d.db" c9Fs).2.2.2.1 rfl).1

/-- C9 counterexample: the claim says the build writes into a fresh location
and the old artifact remains intact until the consistency check passes. In
the code `main` passes the derived store's own path as the output path and
`build_recent_db`'s first action deletes it: immediately after the first
build step — with no consistency check yet run — the previously existing
artifact is gone from the filesystem. -/
theorem claim_C9_counterexample :
    c9Fs "topchanges_recent_60d.db" = some c9Old ∧
    ((build_recent_trace emptyDB ⟨2024, 1, 1⟩ "topchanges_recent_60d.db"
        c9Fs).get? 1).map (fun g => g "topchanges_recent_60d.db") =
      some none ∧
    (some c9Old ≠ (none : Option DB)) := by
  refine ⟨rfl, rfl, by simp [c9Old]⟩

end Handler
